import Mathlib

/-
A shallow embedding of `mininet-topo.py`.

The script has two parts:
 * `MyAutoTopo.build` reads the loopbacks file and the links file and drives the
   engine's host/link creation (`addHost`, `addLink`), deduplicating undirected
   link pairs with the set `all_links`;
 * `simpleRun` re-reads the three files and, per record, issues shell commands to
   the named host (`net[id1].cmd(...)`) and, when tracing is on, resets the
   `pcaps` directory and starts a `tcpdump` capture.

Both are modelled as pure functions from the files' line lists to the sequence of
engine-visible actions (a trace), paired with the first error raised, if any
(Python `ValueError` from tuple unpacking becomes `Err.malformed`, a `KeyError`
from `all_nodes[id]` / `net[id]` becomes `Err.unknownNode`).  A run that raises
aborts with the actions already performed, so `simpleRun` returns the partial
trace next to the error.  Unread mutable state of the script (`loopbacks`,
`nb_nodes`) does not influence any action and is omitted.
-/

deriving instance DecidableEq for Except

namespace MininetTopo

/-- Python `str.split(" ")` on the character list of a line: split at every single
space, keeping empty fields (so `"a  b"` yields three fields, the middle one
empty), exactly the semantics of the source's `line.split(" ")`. -/
def splitFields : List Char → List (List Char)
  | [] => [[]]
  | c :: rest =>
    match splitFields rest with
    | [] => []
    | f :: fs => if c = ' ' then [] :: f :: fs else (c :: f) :: fs

/-- The space-separated fields of a line, as in Python `line.split(" ")`. -/
def fields (s : String) : List String := (splitFields s.data).map String.mk

/-- Python `len(line) == 0`, the blank-line test that guards every loop body. -/
def isBlank (s : String) : Bool := s.data.isEmpty

/-- The fixed capture directory of the script (`PCAP_DIR = "pcaps"`). -/
def PCAP_DIR : String := "pcaps"

/-- Tag for errors raised while reading the loopbacks (node) file. -/
def loopbacksFile : String := "loopbacks"

/-- Tag for errors raised while reading the links file. -/
def linksFile : String := "links"

/-- Tag for errors raised while reading the paths file. -/
def pathsFile : String := "paths"

/-- Errors of the script: a tuple-unpacking `ValueError` on a line with the wrong
field count (`malformed`, spec name `MalformedRecord`), or a `KeyError` when a
record names a host id absent from the node set (`unknownNode`, spec name
`UnknownNodeReference`).  Each carries the file it was raised on and the
offending line or id. -/
inductive Err
  | malformed (file line : String)
  | unknownNode (file id : String)
deriving DecidableEq

/-- The shell commands `simpleRun` builds, one constructor per f-string site in
the source; `render` below reproduces the exact command text. -/
inductive Cmd
  | loAddrAdd (ipv4 : Bool) (addr : String)
  | fwdV4Global
  | fwdV6All
  | mcV6All
  | fwdV6Lo
  | mcV6Lo
  | fwdV6Itf (host itf : String)
  | mcV6Itf (host itf : String)
  | fwdV4Itf (host itf : String)
  | itfAddrAdd (ipv4 : Bool) (addr host itf : String)
  | tcpdump (host itf : String)
  | routeAdd (ipv4 : Bool) (dest via : String)
deriving DecidableEq

/-- The file a capture for interface `itf` of host `host` is written to:
`f"{id1}-{itf}.pcap"` in the source. -/
def captureFile (host itf : String) : String := host ++ "-" ++ itf ++ ".pcap"

/-- The exact command text of the source for each `Cmd`. -/
def Cmd.render : Cmd → String
  | .loAddrAdd v4 addr =>
      if v4 then s!"ip addr add {addr} dev lo" else s!"ip -6 addr add {addr} dev lo"
  | .fwdV4Global => "sysctl net.ipv4.ip_forward=1"
  | .fwdV6All => "sysctl net.ipv6.conf.all.forwarding=1"
  | .mcV6All => "sysctl net.ipv6.conf.all.mc_forwarding=1"
  | .fwdV6Lo => "sysctl net.ipv6.conf.lo.forwarding=1"
  | .mcV6Lo => "sysctl net.ipv6.conf.lo.mc_forwarding=1"
  | .fwdV6Itf h i => s!"sysctl net.ipv6.conf.{h}-eth{i}.forwarding=1"
  | .mcV6Itf h i => s!"sysctl net.ipv6.conf.{h}-eth{i}.mc_forwarding=1"
  | .fwdV4Itf h i => s!"sysctl net.ipv4.{h}-eth{i}.ip_forward=1"
  | .itfAddrAdd v4 addr h i =>
      if v4 then s!"ip addr add {addr} dev {h}-eth{i}"
      else s!"ip -6 addr add {addr} dev {h}-eth{i}"
  | .tcpdump h i => s!"tcpdump -i {h}-eth{i} -w {captureFile h i} &"
  | .routeAdd v4 dest via =>
      if v4 then s!"ip route add {dest} via {via}" else s!"ip -6 route add {dest} via {via}"

/-- Engine-visible actions of `simpleRun`: executing a command on a host
(`net[host].cmd(c.render)`), or removing-and-recreating the capture directory
(`shutil.rmtree(PCAP_DIR)`/`os.makedirs(PCAP_DIR)`). -/
inductive Ev
  | exec (host : String) (c : Cmd)
  | resetPcapDir
deriving DecidableEq

/-- Engine-visible actions of `MyAutoTopo.build`: `addHost(id, ip=.., mac=..)`
and `addLink(a, b)`. -/
inductive BEv
  | addHost (id ip mac : String)
  | addLink (a b : String)
deriving DecidableEq

/-- The node loop of `MyAutoTopo.build`: skip empty lines, unpack
`node_id, loopback = line.split(" ")` (a wrong field count raises), call
`addHost(node_id, ip=loopback, mac=f"00:00:00:00:00:{node_id}")` and record the
id in `all_nodes`.  Returns the `addHost` calls and the dict's keys. -/
def buildNodes : List String → Except Err (List BEv × List String)
  | [] => .ok ([], [])
  | line :: rest =>
    if isBlank line then buildNodes rest
    else
      match fields line with
      | [nodeId, loopback] =>
        match buildNodes rest with
        | .ok (evs, ids) =>
            .ok (BEv.addHost nodeId loopback s!"00:00:00:00:00:{nodeId}" :: evs,
                 nodeId :: ids)
        | .error e => .error e
      | _ => .error (Err.malformed loopbacksFile line)

/-- The link loop of `MyAutoTopo.build`: skip empty lines, unpack the five
fields, skip the record if either orientation of `(id1, id2)` is already in
`all_links` (the accumulator `acc`), otherwise look up both endpoints in
`all_nodes` (`id1` first, a missing key raises), call `addLink` and add
`(id1, id2)` to the set. -/
def buildLinks (ids : List String) : List (String × String) → List String → Except Err (List BEv)
  | _, [] => .ok []
  | acc, line :: rest =>
    if isBlank line then buildLinks ids acc rest
    else
      match fields line with
      | [id1, id2, _, _, _] =>
        if (id1, id2) ∈ acc ∨ (id2, id1) ∈ acc then
          buildLinks ids acc rest
        else if id1 ∈ ids then
          if id2 ∈ ids then
            match buildLinks ids ((id1, id2) :: acc) rest with
            | .ok evs => .ok (BEv.addLink id1 id2 :: evs)
            | .error e => .error e
          else .error (Err.unknownNode linksFile id2)
        else .error (Err.unknownNode linksFile id1)
      | _ => .error (Err.malformed linksFile line)

/-- `MyAutoTopo.build`: the node loop then the link loop.  An exception escapes
`Topo.__init__`, so the engine (`Mininet(topo=...)`) is never constructed and no
host or link is created: the error case carries no events. -/
def build (nodeLines linkLines : List String) : Except Err (List BEv) :=
  match buildNodes nodeLines with
  | .error e => .error e
  | .ok (nevs, ids) =>
    match buildLinks ids [] linkLines with
    | .error e => .error e
    | .ok levs => .ok (nevs ++ levs)

/-- The loopbacks loop of `simpleRun` (source lines 59-83): per non-blank line,
assign the loopback address on `lo` (IPv4 or IPv6 form per the flag), then the
five forwarding sysctls, all executed on `net[id1]`.  A wrong field count or an
unknown id aborts the loop with the events of the earlier lines. -/
def runLoopbacks (v4 : Bool) (hosts : List String) : List String → List Ev × Option Err
  | [] => ([], none)
  | line :: rest =>
    if isBlank line then runLoopbacks v4 hosts rest
    else
      match fields line with
      | [id1, loopback] =>
        if id1 ∈ hosts then
          (Ev.exec id1 (Cmd.loAddrAdd v4 loopback) ::
           Ev.exec id1 Cmd.fwdV4Global ::
           Ev.exec id1 Cmd.fwdV6All ::
           Ev.exec id1 Cmd.mcV6All ::
           Ev.exec id1 Cmd.fwdV6Lo ::
           Ev.exec id1 Cmd.mcV6Lo :: (runLoopbacks v4 hosts rest).1,
           (runLoopbacks v4 hosts rest).2)
        else ([], some (Err.unknownNode loopbacksFile id1))
      | _ => ([], some (Err.malformed loopbacksFile line))

/-- The links loop of `simpleRun` (source lines 85-111): per non-blank line,
the two per-interface IPv6 forwarding sysctls, the per-interface IPv4 sysctl,
the interface address assignment, and, when tracing is enabled, the destructive
reset of `PCAP_DIR` followed by the background `tcpdump` start. -/
def runLinks (v4 traces : Bool) (hosts : List String) : List String → List Ev × Option Err
  | [] => ([], none)
  | line :: rest =>
    if isBlank line then runLinks v4 traces hosts rest
    else
      match fields line with
      | [id1, _, itf, link, _] =>
        if id1 ∈ hosts then
          (Ev.exec id1 (Cmd.fwdV6Itf id1 itf) ::
           Ev.exec id1 (Cmd.mcV6Itf id1 itf) ::
           Ev.exec id1 (Cmd.fwdV4Itf id1 itf) ::
           Ev.exec id1 (Cmd.itfAddrAdd v4 link id1 itf) ::
           ((if traces then [Ev.resetPcapDir, Ev.exec id1 (Cmd.tcpdump id1 itf)] else [])
            ++ (runLinks v4 traces hosts rest).1),
           (runLinks v4 traces hosts rest).2)
        else ([], some (Err.unknownNode linksFile id1))
      | _ => ([], some (Err.malformed linksFile line))

/-- The paths loop of `simpleRun` (source lines 113-124): per non-blank line,
one route-addition command `ip [-6] route add {loopback} via {link}` on
`net[id1]`; the `net[id1]` lookup precedes the command, so an unknown id aborts
before the record's route is issued. -/
def runPaths (v4 : Bool) (hosts : List String) : List String → List Ev × Option Err
  | [] => ([], none)
  | line :: rest =>
    if isBlank line then runPaths v4 hosts rest
    else
      match fields line with
      | [id1, _, link, loopback] =>
        if id1 ∈ hosts then
          (Ev.exec id1 (Cmd.routeAdd v4 loopback link) :: (runPaths v4 hosts rest).1,
           (runPaths v4 hosts rest).2)
        else ([], some (Err.unknownNode pathsFile id1))
      | _ => ([], some (Err.malformed pathsFile line))

/-- `simpleRun`: build the topology (an exception there aborts before any
command), then the three loops in program order.  The result is the command and
reset trace together with the first error, if any. -/
def simpleRun (v4 traces : Bool) (nodeLines linkLines pathLines : List String) :
    List Ev × Option Err :=
  match buildNodes nodeLines with
  | .error e => ([], some e)
  | .ok (_, ids) =>
    match buildLinks ids [] linkLines with
    | .error e => ([], some e)
    | .ok _ =>
      match (runLoopbacks v4 ids nodeLines).2 with
      | some e => ((runLoopbacks v4 ids nodeLines).1, some e)
      | none =>
        match (runLinks v4 traces ids linkLines).2 with
        | some e =>
            ((runLoopbacks v4 ids nodeLines).1 ++ (runLinks v4 traces ids linkLines).1,
             some e)
        | none =>
          ((runLoopbacks v4 ids nodeLines).1 ++ (runLinks v4 traces ids linkLines).1 ++
             (runPaths v4 ids pathLines).1,
           (runPaths v4 ids pathLines).2)

/-- The action trace of a run. -/
def runTrace (v4 traces : Bool) (nodeLines linkLines pathLines : List String) : List Ev :=
  (simpleRun v4 traces nodeLines linkLines pathLines).1

/-- The first error of a run, if any. -/
def runErr (v4 traces : Bool) (nodeLines linkLines pathLines : List String) : Option Err :=
  (simpleRun v4 traces nodeLines linkLines pathLines).2

/-- Neutral out-of-range filler for `List.getD` on traces: the reset action is
in none of the command classes used at trace positions below. -/
def noEv : Ev := Ev.resetPcapDir

/-- A route-installation command. -/
def Ev.isRoute : Ev → Bool
  | .exec _ (.routeAdd _ _ _) => true
  | _ => false

/-- An address-assignment command (loopback or interface). -/
def Ev.isAddrAssign : Ev → Bool
  | .exec _ (.loAddrAdd _ _) => true
  | .exec _ (.itfAddrAdd _ _ _ _) => true
  | _ => false

/-- A forwarding-enable command (any of the eight sysctl forms). -/
def Ev.isFwdEnable : Ev → Bool
  | .exec _ .fwdV4Global => true
  | .exec _ .fwdV6All => true
  | .exec _ .mcV6All => true
  | .exec _ .fwdV6Lo => true
  | .exec _ .mcV6Lo => true
  | .exec _ (.fwdV6Itf _ _) => true
  | .exec _ (.mcV6Itf _ _) => true
  | .exec _ (.fwdV4Itf _ _) => true
  | _ => false

/-- A forwarding-enable or address-assignment command. -/
def Ev.isConfigCmd (e : Ev) : Bool := e.isFwdEnable || e.isAddrAssign

/-- A global or loopback-interface forwarding-enable command (the five sysctls
of the loopbacks loop). -/
def Ev.isGlobalFwd : Ev → Bool
  | .exec _ .fwdV4Global => true
  | .exec _ .fwdV6All => true
  | .exec _ .mcV6All => true
  | .exec _ .fwdV6Lo => true
  | .exec _ .mcV6Lo => true
  | _ => false

/-- A global or loopback-interface forwarding-enable command on host `h`. -/
def Ev.isGlobalFwdTo (h : String) : Ev → Bool
  | .exec x .fwdV4Global => x == h
  | .exec x .fwdV6All => x == h
  | .exec x .mcV6All => x == h
  | .exec x .fwdV6Lo => x == h
  | .exec x .mcV6Lo => x == h
  | _ => false

/-- A link-interface address assignment. -/
def Ev.isItfAddr : Ev → Bool
  | .exec _ (.itfAddrAdd _ _ _ _) => true
  | _ => false

/-- A loopback address assignment on host `h`. -/
def Ev.isLoAddrTo (h : String) : Ev → Bool
  | .exec x (.loAddrAdd _ _) => x == h
  | _ => false

/-- An address assignment on interface `k` of host `h`. -/
def Ev.isItfAddrTo (h k : String) : Ev → Bool
  | .exec _ (.itfAddrAdd _ _ hh ii) => hh == h && ii == k
  | _ => false

/-- A forwarding-enable sysctl on interface `k` of host `h`. -/
def Ev.isItfFwdTo (h k : String) : Ev → Bool
  | .exec _ (.fwdV6Itf hh ii) => hh == h && ii == k
  | .exec _ (.mcV6Itf hh ii) => hh == h && ii == k
  | .exec _ (.fwdV4Itf hh ii) => hh == h && ii == k
  | _ => false

/-- A capture-start command. -/
def Ev.isTcpdump : Ev → Bool
  | .exec _ (.tcpdump _ _) => true
  | _ => false

/-- The capture-directory reset. -/
def Ev.isReset : Ev → Bool
  | .resetPcapDir => true
  | _ => false

/-- The address family (the `ipv4` flag value) an address or route command was
built with, `none` for the other commands. -/
def Ev.fam : Ev → Option Bool
  | .exec _ (.loAddrAdd v4 _) => some v4
  | .exec _ (.itfAddrAdd v4 _ _ _) => some v4
  | .exec _ (.routeAdd v4 _ _) => some v4
  | _ => none

/-- An action is family-consistent with flag `v4` when it is not an
address/route command or was built with exactly that flag. -/
def famOK (v4 : Bool) (e : Ev) : Bool :=
  match e.fam with
  | some b => b == v4
  | none => true

/-- Actions emitted by the loopbacks loop. -/
def Ev.inLoopSection : Ev → Bool
  | .exec _ (.loAddrAdd _ _) => true
  | .exec _ .fwdV4Global => true
  | .exec _ .fwdV6All => true
  | .exec _ .mcV6All => true
  | .exec _ .fwdV6Lo => true
  | .exec _ .mcV6Lo => true
  | _ => false

/-- Actions emitted by the links loop. -/
def Ev.inLinkSection : Ev → Bool
  | .exec _ (.fwdV6Itf _ _) => true
  | .exec _ (.mcV6Itf _ _) => true
  | .exec _ (.fwdV4Itf _ _) => true
  | .exec _ (.itfAddrAdd _ _ _ _) => true
  | .exec _ (.tcpdump _ _) => true
  | .resetPcapDir => true
  | _ => false

/-- The `(id, loopback)` pairs of the well-formed (non-blank, 2-field) node
lines, in file order. -/
def nodeRecords (lines : List String) : List (String × String) :=
  lines.filterMap fun l =>
    if isBlank l then none
    else match fields l with
      | [a, b] => some (a, b)
      | _ => none

/-- The node-id set of a node file. -/
def nodeIds (lines : List String) : List String := (nodeRecords lines).map Prod.fst

/-- The `(id1, id2)` endpoint pairs of the well-formed (non-blank, 5-field) link
lines, in file order. -/
def linkEndpoints (lines : List String) : List (String × String) :=
  lines.filterMap fun l =>
    if isBlank l then none
    else match fields l with
      | [a, b, _, _, _] => some (a, b)
      | _ => none

/-- The endpoint pairs of the `addLink` calls of a build-event list. -/
def linkPairs (evs : List BEv) : List (String × String) :=
  evs.filterMap fun e =>
    match e with
    | .addLink a b => some (a, b)
    | _ => none

/-- The host ids of the `addHost` calls of a build-event list. -/
def hostIds (evs : List BEv) : List String :=
  evs.filterMap fun e =>
    match e with
    | .addHost i _ _ => some i
    | _ => none

/-- The host ids of the `addHost` calls of a build result (none on error). -/
def hostIdsOf : Except Err (List BEv) → List String
  | .ok evs => hostIds evs
  | .error _ => []

/-- A pair of ids as an unordered (undirected) pair. -/
def upair (p : String × String) : Sym2 String := Sym2.mk p

/-- A line is blank or splits into exactly `n` fields. -/
def wfCount (n : Nat) (l : String) : Bool := isBlank l || (fields l).length == n

/-- Some non-blank line of the file splits into a field count other than `n`. -/
def hasBad (n : Nat) (lines : List String) : Bool := !(lines.all (wfCount n))

/-- The build result is a `MalformedRecord` error. -/
def errMalformed : Except Err (List BEv) → Bool
  | .error (.malformed _ _) => true
  | _ => false

/-- The build aborted with some error. -/
def buildFails : Except Err (List BEv) → Bool
  | .error _ => true
  | .ok _ => false

/-- The run error is an `UnknownNodeReference` raised on the paths file. -/
def errIsUnknownPath : Option Err → Bool
  | some (.unknownNode f _) => f == pathsFile
  | _ => false

/-- A link line that cannot raise: blank, or five fields with both endpoints in
the node set. -/
def goodLinkLine (ids : List String) (l : String) : Bool :=
  if isBlank l then true
  else match fields l with
    | [a, b, _, _, _] => decide (a ∈ ids) && decide (b ∈ ids)
    | _ => false

/-- A path line that cannot raise: blank, or four fields with a known host id. -/
def goodPathLine (ids : List String) (l : String) : Bool :=
  if isBlank l then true
  else match fields l with
    | [a, _, _, _] => decide (a ∈ ids)
    | _ => false

/-- A well-formed link line with an endpoint outside the node set. -/
def unknownLinkLine (ids : List String) (l : String) : Bool :=
  if isBlank l then false
  else match fields l with
    | [a, b, _, _, _] => !(decide (a ∈ ids) && decide (b ∈ ids))
    | _ => false

/-- A well-formed path line whose host id is outside the node set. -/
def unknownPathLine (ids : List String) (l : String) : Bool :=
  if isBlank l then false
  else match fields l with
    | [a, _, _, _] => !(decide (a ∈ ids))
    | _ => false

/-- A non-blank line. -/
def nonBlank (l : String) : Bool := !(isBlank l)

/-- Scan of a trace checking that every capture-start command is immediately
preceded by a capture-directory reset; `prev` is the previous action. -/
def capChainOK : Ev → List Ev → Bool
  | _, [] => true
  | prev, x :: rest => (!(x.isTcpdump) || prev.isReset) && capChainOK x rest

/-- Every capture-start command of the trace is immediately preceded by a
capture-directory reset (the virtual action before the first position is a
non-reset command, so a trace may not start with a capture). -/
def capOK (l : List Ev) : Bool := capChainOK (Ev.exec "" Cmd.fwdV4Global) l

/-- A path (as a string) lies inside the capture directory: `"pcaps/"` is a
prefix of it. -/
def insidePcaps (s : String) : Bool := "pcaps/".data.isPrefixOf s.data

/-- A capture-start command whose output file lies inside the capture
directory. -/
def Ev.isTcpdumpInsidePcaps : Ev → Bool
  | .exec _ (.tcpdump h i) => insidePcaps (captureFile h i)
  | _ => false

/-! ### Helper lemmas -/

theorem getD_mem_of_lt {α : Type} (l : List α) (d : α) {n : Nat} (h : n < l.length) :
    l.getD n d ∈ l := by
  rw [List.getD_eq_getElem l d h]
  exact List.getElem_mem h

theorem seg_lt {α : Type} (P Q : α → Bool) (A B : List α) (d : α)
    (hPB : ∀ x ∈ B, P x = false) (hPd : P d = false)
    (hQA : ∀ x ∈ A, Q x = false) :
    ∀ i j, P ((A ++ B).getD i d) = true → Q ((A ++ B).getD j d) = true → i < j := by
  intro i j hPi hQj
  have hi : i < A.length := by
    by_contra hc
    push_neg at hc
    by_cases hl : i < (A ++ B).length
    · have hij : (A ++ B).getD i d = B.getD (i - A.length) d :=
        List.getD_append_right A B d i hc
      have hlen : i - A.length < B.length := by
        simp [List.length_append] at hl; omega
      have hm : (A ++ B).getD i d ∈ B := by
        rw [hij]; exact getD_mem_of_lt B d hlen
      rw [hPB _ hm] at hPi; exact Bool.noConfusion hPi
    · push_neg at hl
      rw [List.getD_eq_default _ _ hl, hPd] at hPi; exact Bool.noConfusion hPi
  have hj : A.length ≤ j := by
    by_contra hc
    push_neg at hc
    have hij : (A ++ B).getD j d = A.getD j d := List.getD_append A B d j hc
    have hm : (A ++ B).getD j d ∈ A := by
      rw [hij]; exact getD_mem_of_lt A d hc
    rw [hQA _ hm] at hQj; exact Bool.noConfusion hQj
  omega

theorem runLoopbacks_sect (v4 : Bool) (hosts : List String) :
    ∀ lines, ∀ x ∈ (runLoopbacks v4 hosts lines).1, x.inLoopSection = true := by
  intro lines
  induction lines with
  | nil => intro x hx; simp [runLoopbacks] at hx
  | cons line rest ih =>
    intro x hx
    unfold runLoopbacks at hx
    split at hx
    · exact ih x hx
    · split at hx
      · split at hx
        · simp only [List.mem_cons] at hx
          rcases hx with rfl|rfl|rfl|rfl|rfl|rfl|hx
          · rfl
          · rfl
          · rfl
          · rfl
          · rfl
          · rfl
          · exact ih x hx
        · simp at hx
      · simp at hx

theorem runLinks_sect (v4 traces : Bool) (hosts : List String) :
    ∀ lines, ∀ x ∈ (runLinks v4 traces hosts lines).1, x.inLinkSection = true := by
  intro lines
  induction lines with
  | nil => intro x hx; simp [runLinks] at hx
  | cons line rest ih =>
    intro x hx
    unfold runLinks at hx
    split at hx
    · exact ih x hx
    · split at hx
      · split at hx
        · simp only [List.mem_cons] at hx
          rcases hx with rfl|rfl|rfl|rfl|hx
          · rfl
          · rfl
          · rfl
          · rfl
          · rcases List.mem_append.mp hx with hc|hx
            · cases traces
              · simp at hc
              · simp at hc
                rcases hc with rfl|rfl
                · rfl
                · rfl
            · exact ih x hx
        · simp at hx
      · simp at hx

theorem runPaths_route (v4 : Bool) (hosts : List String) :
    ∀ lines, ∀ x ∈ (runPaths v4 hosts lines).1, x.isRoute = true := by
  intro lines
  induction lines with
  | nil => intro x hx; simp [runPaths] at hx
  | cons line rest ih =>
    intro x hx
    unfold runPaths at hx
    split at hx
    · exact ih x hx
    · split at hx
      · split at hx
        · simp only [List.mem_cons] at hx
          rcases hx with rfl|hx
          · rfl
          · exact ih x hx
        · simp at hx
      · simp at hx

theorem inLoop_not (e : Ev) (h : e.inLoopSection = true) :
    e.isRoute = false ∧ e.isItfAddr = false ∧ e.isTcpdump = false ∧ e.isReset = false ∧
      (∀ hh kk, e.isItfAddrTo hh kk = false) ∧ e.isTcpdumpInsidePcaps = false := by
  cases e with
  | exec hh c =>
    cases c <;>
      simp_all [Ev.inLoopSection, Ev.isRoute, Ev.isItfAddr, Ev.isTcpdump, Ev.isReset,
        Ev.isItfAddrTo, Ev.isTcpdumpInsidePcaps]
  | resetPcapDir => simp [Ev.inLoopSection] at h

theorem inLink_not (e : Ev) (h : e.inLinkSection = true) :
    e.isRoute = false ∧ e.isGlobalFwd = false ∧ (∀ hh, e.isGlobalFwdTo hh = false) ∧
      (∀ hh, e.isLoAddrTo hh = false) := by
  cases e with
  | exec hh c =>
    cases c <;>
      simp_all [Ev.inLinkSection, Ev.isRoute, Ev.isGlobalFwd, Ev.isGlobalFwdTo, Ev.isLoAddrTo]
  | resetPcapDir =>
    simp [Ev.isRoute, Ev.isGlobalFwd, Ev.isGlobalFwdTo, Ev.isLoAddrTo]

theorem isRoute_not (e : Ev) (h : e.isRoute = true) :
    e.isConfigCmd = false ∧ e.isGlobalFwd = false ∧ e.isItfAddr = false ∧
      e.isTcpdump = false ∧ e.isReset = false ∧ (∀ hh, e.isGlobalFwdTo hh = false) ∧
      (∀ hh kk, e.isItfAddrTo hh kk = false) ∧ (∀ hh, e.isLoAddrTo hh = false) ∧
      e.isTcpdumpInsidePcaps = false := by
  cases e with
  | exec hh c =>
    cases c <;>
      simp_all [Ev.isRoute, Ev.isConfigCmd, Ev.isFwdEnable, Ev.isAddrAssign, Ev.isGlobalFwd,
        Ev.isItfAddr, Ev.isTcpdump, Ev.isReset, Ev.isGlobalFwdTo, Ev.isItfAddrTo,
        Ev.isLoAddrTo, Ev.isTcpdumpInsidePcaps]
  | resetPcapDir => simp [Ev.isRoute] at h

theorem runTrace_decomp (v4 traces : Bool) (nl ll pl : List String) :
    ∃ ids L1 L2 L3,
      runTrace v4 traces nl ll pl = L1 ++ L2 ++ L3 ∧
      (L1 = [] ∨ L1 = (runLoopbacks v4 ids nl).1) ∧
      (L2 = [] ∨ L2 = (runLinks v4 traces ids ll).1) ∧
      (L3 = [] ∨ L3 = (runPaths v4 ids pl).1) := by
  unfold runTrace simpleRun
  cases hbn : buildNodes nl with
  | error e =>
    exact ⟨[], [], [], [], by simp, Or.inl rfl, Or.inl rfl, Or.inl rfl⟩
  | ok p =>
    obtain ⟨nevs, ids⟩ := p
    cases hbl : buildLinks ids [] ll with
    | error e =>
      exact ⟨ids, [], [], [], by simp [hbl], Or.inl rfl, Or.inl rfl, Or.inl rfl⟩
    | ok levs =>
      cases hr1 : (runLoopbacks v4 ids nl).2 with
      | some e =>
        exact ⟨ids, (runLoopbacks v4 ids nl).1, [], [], by simp [hbl, hr1],
          Or.inr rfl, Or.inl rfl, Or.inl rfl⟩
      | none =>
        cases hr2 : (runLinks v4 traces ids ll).2 with
        | some e =>
          exact ⟨ids, (runLoopbacks v4 ids nl).1, (runLinks v4 traces ids ll).1, [],
            by simp [hbl, hr1, hr2], Or.inr rfl, Or.inr rfl, Or.inl rfl⟩
        | none =>
          exact ⟨ids, (runLoopbacks v4 ids nl).1, (runLinks v4 traces ids ll).1,
            (runPaths v4 ids pl).1, by simp [hbl, hr1, hr2], Or.inr rfl, Or.inr rfl, Or.inr rfl⟩

theorem runTrace_classes (v4 traces : Bool) (nl ll pl : List String) :
    ∃ L1 L2 L3,
      runTrace v4 traces nl ll pl = L1 ++ L2 ++ L3 ∧
      (∀ x ∈ L1, x.inLoopSection = true) ∧
      (∀ x ∈ L2, x.inLinkSection = true) ∧
      (∀ x ∈ L3, x.isRoute = true) := by
  obtain ⟨ids, L1, L2, L3, heq, h1, h2, h3⟩ := runTrace_decomp v4 traces nl ll pl
  refine ⟨L1, L2, L3, heq, ?_, ?_, ?_⟩
  · rcases h1 with rfl | rfl
    · intro x hx; simp at hx
    · exact runLoopbacks_sect v4 ids nl
  · rcases h2 with rfl | rfl
    · intro x hx; simp at hx
    · exact runLinks_sect v4 traces ids ll
  · rcases h3 with rfl | rfl
    · intro x hx; simp at hx
    · exact runPaths_route v4 ids pl

theorem runLoopbacks_fam (v4 : Bool) (hosts : List String) :
    ∀ lines, ∀ x ∈ (runLoopbacks v4 hosts lines).1, famOK v4 x = true := by
  intro lines
  induction lines with
  | nil => intro x hx; simp [runLoopbacks] at hx
  | cons line rest ih =>
    intro x hx
    unfold runLoopbacks at hx
    split at hx
    · exact ih x hx
    · split at hx
      · split at hx
        · simp only [List.mem_cons] at hx
          rcases hx with rfl|rfl|rfl|rfl|rfl|rfl|hx
          · simp [famOK, Ev.fam]
          · rfl
          · rfl
          · rfl
          · rfl
          · rfl
          · exact ih x hx
        · simp at hx
      · simp at hx

theorem runLinks_fam (v4 traces : Bool) (hosts : List String) :
    ∀ lines, ∀ x ∈ (runLinks v4 traces hosts lines).1, famOK v4 x = true := by
  intro lines
  induction lines with
  | nil => intro x hx; simp [runLinks] at hx
  | cons line rest ih =>
    intro x hx
    unfold runLinks at hx
    split at hx
    · exact ih x hx
    · split at hx
      · split at hx
        · simp only [List.mem_cons] at hx
          rcases hx with rfl|rfl|rfl|rfl|hx
          · rfl
          · rfl
          · rfl
          · simp [famOK, Ev.fam]
          · rcases List.mem_append.mp hx with hc|hx
            · cases traces
              · simp at hc
              · simp at hc
                rcases hc with rfl|rfl
                · rfl
                · rfl
            · exact ih x hx
        · simp at hx
      · simp at hx

theorem runPaths_fam (v4 : Bool) (hosts : List String) :
    ∀ lines, ∀ x ∈ (runPaths v4 hosts lines).1, famOK v4 x = true := by
  intro lines
  induction lines with
  | nil => intro x hx; simp [runPaths] at hx
  | cons line rest ih =>
    intro x hx
    unfold runPaths at hx
    split at hx
    · exact ih x hx
    · split at hx
      · split at hx
        · simp only [List.mem_cons] at hx
          rcases hx with rfl|hx
          · simp [famOK, Ev.fam]
          · exact ih x hx
        · simp at hx
      · simp at hx

/-- Concrete run input used by witnesses: the node file of the spec's worked
example. -/
def wNodes : List String := ["A 10.0.0.1/32", "B 10.0.0.2/32"]

/-- Concrete run input used by witnesses: the link file of the spec's worked
example (both orientations of the single physical link). -/
def wLinks : List String := ["A B 0 10.0.0.5/30 10.0.0.2/32", "B A 0 10.0.0.6/30 10.0.0.1/32"]

/-- Concrete run input used by witnesses: a single static route on host A. -/
def wPaths : List String := ["A 0 10.0.0.6 10.0.0.2/32"]

/-- C3: in the command sequence of a run, every route-installation command comes
strictly after every forwarding-enable and address-assignment command; no route
command ever precedes a forwarding or addressing command. -/
theorem C3_routes_after_config (v4 traces : Bool) (nl ll pl : List String) :
    ∀ i j, ((runTrace v4 traces nl ll pl).getD i noEv).isConfigCmd = true →
      ((runTrace v4 traces nl ll pl).getD j noEv).isRoute = true → i < j := by
  obtain ⟨L1, L2, L3, heq, h1, h2, h3⟩ := runTrace_classes v4 traces nl ll pl
  have heq2 : runTrace v4 traces nl ll pl = (L1 ++ L2) ++ L3 := by
    rw [heq, List.append_assoc]
  rw [heq2]
  refine seg_lt Ev.isConfigCmd Ev.isRoute (L1 ++ L2) L3 noEv ?_ rfl ?_
  · intro x hx
    exact (isRoute_not x (h3 x hx)).1
  · intro x hx
    rcases List.mem_append.mp hx with hc|hc
    · exact (inLoop_not x (h1 x hc)).1
    · exact (inLink_not x (h2 x hc)).1

/-- Witness for C3 at the spec's worked example: the first action is a
configuration command, position 20 is the route command, and 0 < 20. -/
theorem C3_routes_after_config_witness :
    ((runTrace false false wNodes wLinks wPaths).getD 0 noEv).isConfigCmd = true ∧
    ((runTrace false false wNodes wLinks wPaths).getD 20 noEv).isRoute = true ∧
    0 < 20 :=
  ⟨by decide, by decide,
   C3_routes_after_config false false wNodes wLinks wPaths 0 20 (by decide) (by decide)⟩

/-- C5: with the IPv4 flag set every address-assignment and route-installation
command of the run is the IPv4 variant, with it unset every one is the IPv6
variant; a single run never mixes the two families. -/
theorem C5_single_family (v4 traces : Bool) (nl ll pl : List String) :
    (runTrace v4 traces nl ll pl).all (famOK v4) = true := by
  rw [List.all_eq_true]
  intro x hx
  obtain ⟨ids, L1, L2, L3, heq, h1, h2, h3⟩ := runTrace_decomp v4 traces nl ll pl
  rw [heq] at hx
  rcases List.mem_append.mp hx with hc|hx2
  · rcases List.mem_append.mp hc with hc1|hc2
    · rcases h1 with rfl|rfl
      · simp at hc1
      · exact runLoopbacks_fam v4 ids nl x hc1
    · rcases h2 with rfl|rfl
      · simp at hc2
      · exact runLinks_fam v4 traces ids ll x hc2
  · rcases h3 with rfl|rfl
    · simp at hx2
    · exact runPaths_fam v4 ids pl x hx2

theorem getD_in_left {α : Type} (P : α → Bool) (A B : List α) (d : α)
    (hPB : ∀ x ∈ B, P x = false) (hPd : P d = false) :
    ∀ j, P ((A ++ B).getD j d) = true →
      j < A.length ∧ (A ++ B).getD j d = A.getD j d := by
  intro j hj
  have hjlt : j < A.length := by
    by_contra hc
    push_neg at hc
    by_cases hl : j < (A ++ B).length
    · have heq : (A ++ B).getD j d = B.getD (j - A.length) d :=
        List.getD_append_right A B d j hc
      have hlen : j - A.length < B.length := by
        simp only [List.length_append] at hl; omega
      have hm : (A ++ B).getD j d ∈ B := by
        rw [heq]; exact getD_mem_of_lt B d hlen
      rw [hPB _ hm] at hj; exact Bool.noConfusion hj
    · push_neg at hl
      rw [List.getD_eq_default _ _ hl, hPd] at hj; exact Bool.noConfusion hj
  exact ⟨hjlt, List.getD_append A B d j hjlt⟩

theorem getD_in_right {α : Type} (P : α → Bool) (A B : List α) (d : α)
    (hPA : ∀ x ∈ A, P x = false) :
    ∀ j, P ((A ++ B).getD j d) = true →
      A.length ≤ j ∧ (A ++ B).getD j d = B.getD (j - A.length) d := by
  intro j hj
  have hge : A.length ≤ j := by
    by_contra hc
    push_neg at hc
    have heq : (A ++ B).getD j d = A.getD j d := List.getD_append A B d j hc
    have hm : (A ++ B).getD j d ∈ A := by
      rw [heq]; exact getD_mem_of_lt A d hc
    rw [hPA _ hm] at hj; exact Bool.noConfusion hj
  exact ⟨hge, List.getD_append_right A B d j hge⟩

theorem runLoopbacks_cons_eq (v4 : Bool) (hosts : List String) (line : String)
    (rest : List String) :
    runLoopbacks v4 hosts (line :: rest) =
      (if isBlank line then runLoopbacks v4 hosts rest
       else
        match fields line with
        | [id1, loopback] =>
          if id1 ∈ hosts then
            (Ev.exec id1 (Cmd.loAddrAdd v4 loopback) ::
             Ev.exec id1 Cmd.fwdV4Global ::
             Ev.exec id1 Cmd.fwdV6All ::
             Ev.exec id1 Cmd.mcV6All ::
             Ev.exec id1 Cmd.fwdV6Lo ::
             Ev.exec id1 Cmd.mcV6Lo :: (runLoopbacks v4 hosts rest).1,
             (runLoopbacks v4 hosts rest).2)
          else ([], some (Err.unknownNode loopbacksFile id1))
        | _ => ([], some (Err.malformed loopbacksFile line))) := rfl

theorem runLinks_cons_eq (v4 traces : Bool) (hosts : List String) (line : String)
    (rest : List String) :
    runLinks v4 traces hosts (line :: rest) =
      (if isBlank line then runLinks v4 traces hosts rest
       else
        match fields line with
        | [id1, _, itf, link, _] =>
          if id1 ∈ hosts then
            (Ev.exec id1 (Cmd.fwdV6Itf id1 itf) ::
             Ev.exec id1 (Cmd.mcV6Itf id1 itf) ::
             Ev.exec id1 (Cmd.fwdV4Itf id1 itf) ::
             Ev.exec id1 (Cmd.itfAddrAdd v4 link id1 itf) ::
             ((if traces then [Ev.resetPcapDir, Ev.exec id1 (Cmd.tcpdump id1 itf)] else [])
              ++ (runLinks v4 traces hosts rest).1),
             (runLinks v4 traces hosts rest).2)
          else ([], some (Err.unknownNode linksFile id1))
        | _ => ([], some (Err.malformed linksFile line))) := rfl

theorem runPaths_cons_eq (v4 : Bool) (hosts : List String) (line : String)
    (rest : List String) :
    runPaths v4 hosts (line :: rest) =
      (if isBlank line then runPaths v4 hosts rest
       else
        match fields line with
        | [id1, _, link, loopback] =>
          if id1 ∈ hosts then
            (Ev.exec id1 (Cmd.routeAdd v4 loopback link) :: (runPaths v4 hosts rest).1,
             (runPaths v4 hosts rest).2)
          else ([], some (Err.unknownNode pathsFile id1))
        | _ => ([], some (Err.malformed pathsFile line))) := rfl

theorem runLoopbacks_cons_shape (v4 : Bool) (hosts : List String) (line : String)
    (rest : List String) :
    (isBlank line = true ∧ runLoopbacks v4 hosts (line :: rest) = runLoopbacks v4 hosts rest) ∨
    (∃ id1 lb, isBlank line = false ∧ fields line = [id1, lb] ∧ id1 ∈ hosts ∧
      runLoopbacks v4 hosts (line :: rest) =
        (Ev.exec id1 (Cmd.loAddrAdd v4 lb) ::
         Ev.exec id1 Cmd.fwdV4Global ::
         Ev.exec id1 Cmd.fwdV6All ::
         Ev.exec id1 Cmd.mcV6All ::
         Ev.exec id1 Cmd.fwdV6Lo ::
         Ev.exec id1 Cmd.mcV6Lo :: (runLoopbacks v4 hosts rest).1,
         (runLoopbacks v4 hosts rest).2)) ∨
    (∃ e, runLoopbacks v4 hosts (line :: rest) = ([], some e)) := by
  rw [runLoopbacks_cons_eq]
  split
  · next hb => exact Or.inl ⟨hb, rfl⟩
  · next hb =>
    have hb2 : isBlank line = false := by
      cases hcase : isBlank line
      · rfl
      · exact absurd hcase hb
    split
    · next id1 lb heq =>
      split
      · next hmem => exact Or.inr (Or.inl ⟨id1, lb, hb2, heq, hmem, rfl⟩)
      · exact Or.inr (Or.inr ⟨_, rfl⟩)
    · exact Or.inr (Or.inr ⟨_, rfl⟩)

theorem runLinks_cons_shape (v4 traces : Bool) (hosts : List String) (line : String)
    (rest : List String) :
    (isBlank line = true ∧ runLinks v4 traces hosts (line :: rest) = runLinks v4 traces hosts rest) ∨
    (∃ id1 f2 itf link f5, isBlank line = false ∧
      fields line = [id1, f2, itf, link, f5] ∧ id1 ∈ hosts ∧
      runLinks v4 traces hosts (line :: rest) =
        (Ev.exec id1 (Cmd.fwdV6Itf id1 itf) ::
         Ev.exec id1 (Cmd.mcV6Itf id1 itf) ::
         Ev.exec id1 (Cmd.fwdV4Itf id1 itf) ::
         Ev.exec id1 (Cmd.itfAddrAdd v4 link id1 itf) ::
         ((if traces then [Ev.resetPcapDir, Ev.exec id1 (Cmd.tcpdump id1 itf)] else []) ++
           (runLinks v4 traces hosts rest).1),
         (runLinks v4 traces hosts rest).2)) ∨
    (∃ e, runLinks v4 traces hosts (line :: rest) = ([], some e)) := by
  rw [runLinks_cons_eq]
  split
  · next hb => exact Or.inl ⟨hb, rfl⟩
  · next hb =>
    have hb2 : isBlank line = false := by
      cases hcase : isBlank line
      · rfl
      · exact absurd hcase hb
    split
    · next id1 f2 itf link f5 heq =>
      split
      · next hmem => exact Or.inr (Or.inl ⟨id1, f2, itf, link, f5, hb2, heq, hmem, rfl⟩)
      · exact Or.inr (Or.inr ⟨_, rfl⟩)
    · exact Or.inr (Or.inr ⟨_, rfl⟩)

theorem runPaths_cons_shape (v4 : Bool) (hosts : List String) (line : String)
    (rest : List String) :
    (isBlank line = true ∧ runPaths v4 hosts (line :: rest) = runPaths v4 hosts rest) ∨
    (∃ id1 f2 link lb, isBlank line = false ∧ fields line = [id1, f2, link, lb] ∧ id1 ∈ hosts ∧
      runPaths v4 hosts (line :: rest) =
        (Ev.exec id1 (Cmd.routeAdd v4 lb link) :: (runPaths v4 hosts rest).1,
         (runPaths v4 hosts rest).2)) ∨
    (∃ e, runPaths v4 hosts (line :: rest) = ([], some e)) := by
  rw [runPaths_cons_eq]
  split
  · next hb => exact Or.inl ⟨hb, rfl⟩
  · next hb =>
    have hb2 : isBlank line = false := by
      cases hcase : isBlank line
      · rfl
      · exact absurd hcase hb
    split
    · next id1 f2 link lb heq =>
      split
      · next hmem => exact Or.inr (Or.inl ⟨id1, f2, link, lb, hb2, heq, hmem, rfl⟩)
      · exact Or.inr (Or.inr ⟨_, rfl⟩)
    · exact Or.inr (Or.inr ⟨_, rfl⟩)

theorem runLoopbacks_addr_first (v4 : Bool) (hosts : List String) :
    ∀ lines j h,
      Ev.isGlobalFwdTo h ((runLoopbacks v4 hosts lines).1.getD j noEv) = true →
      ∃ i, i < j ∧ Ev.isLoAddrTo h ((runLoopbacks v4 hosts lines).1.getD i noEv) = true := by
  intro lines
  induction lines with
  | nil =>
    intro j h hj
    rw [show (runLoopbacks v4 hosts []).1 = [] from rfl,
        List.getD_eq_default _ _ (by simp)] at hj
    simp [noEv, Ev.isGlobalFwdTo] at hj
  | cons line rest ih =>
    intro j h hj
    rcases runLoopbacks_cons_shape v4 hosts line rest with ⟨hbl, hsh⟩ | ⟨id1, lb, hnb, hf, hmem, hsh⟩ | ⟨e, hsh⟩
    · rw [hsh] at hj ⊢
      exact ih j h hj
    · rw [hsh] at hj ⊢
      rcases j with _|⟨_|⟨_|⟨_|⟨_|⟨_|m⟩⟩⟩⟩⟩
      · simp [Ev.isGlobalFwdTo] at hj
      · refine ⟨0, by omega, ?_⟩
        simp only [List.getD_cons_succ, List.getD_cons_zero] at hj ⊢
        simp [Ev.isGlobalFwdTo] at hj
        simp [Ev.isLoAddrTo, hj]
      · refine ⟨0, by omega, ?_⟩
        simp only [List.getD_cons_succ, List.getD_cons_zero] at hj ⊢
        simp [Ev.isGlobalFwdTo] at hj
        simp [Ev.isLoAddrTo, hj]
      · refine ⟨0, by omega, ?_⟩
        simp only [List.getD_cons_succ, List.getD_cons_zero] at hj ⊢
        simp [Ev.isGlobalFwdTo] at hj
        simp [Ev.isLoAddrTo, hj]
      · refine ⟨0, by omega, ?_⟩
        simp only [List.getD_cons_succ, List.getD_cons_zero] at hj ⊢
        simp [Ev.isGlobalFwdTo] at hj
        simp [Ev.isLoAddrTo, hj]
      · refine ⟨0, by omega, ?_⟩
        simp only [List.getD_cons_succ, List.getD_cons_zero] at hj ⊢
        simp [Ev.isGlobalFwdTo] at hj
        simp [Ev.isLoAddrTo, hj]
      · simp only [List.getD_cons_succ] at hj
        obtain ⟨i, hilt, hP⟩ := ih m h hj
        refine ⟨i + 6, by omega, ?_⟩
        simp only [List.getD_cons_succ]
        exact hP
    · rw [hsh] at hj
      rw [List.getD_eq_default _ _ (by simp)] at hj
      simp [noEv, Ev.isGlobalFwdTo] at hj

theorem runLinks_itffwd_first (v4 traces : Bool) (hosts : List String) :
    ∀ lines j h k,
      Ev.isItfAddrTo h k ((runLinks v4 traces hosts lines).1.getD j noEv) = true →
      ∃ i, i < j ∧ Ev.isItfFwdTo h k ((runLinks v4 traces hosts lines).1.getD i noEv) = true := by
  intro lines
  induction lines with
  | nil =>
    intro j h k hj
    rw [show (runLinks v4 traces hosts []).1 = [] from rfl,
        List.getD_eq_default _ _ (by simp)] at hj
    simp [noEv, Ev.isItfAddrTo] at hj
  | cons line rest ih =>
    intro j h k hj
    rcases runLinks_cons_shape v4 traces hosts line rest with
      ⟨hbl, hsh⟩ | ⟨id1, f2, itf, link, f5, hnb, hf, hmem, hsh⟩ | ⟨e, hsh⟩
    · rw [hsh] at hj ⊢
      exact ih j h k hj
    · rw [hsh] at hj ⊢
      rcases j with _|⟨_|⟨_|⟨_|m⟩⟩⟩
      · simp [Ev.isItfAddrTo] at hj
      · simp only [List.getD_cons_succ, List.getD_cons_zero] at hj
        simp [Ev.isItfAddrTo] at hj
      · simp only [List.getD_cons_succ, List.getD_cons_zero] at hj
        simp [Ev.isItfAddrTo] at hj
      · -- j = 3 : the interface address assignment of this record
        simp only [List.getD_cons_succ, List.getD_cons_zero] at hj
        simp [Ev.isItfAddrTo] at hj
        refine ⟨0, by omega, ?_⟩
        simp only [List.getD_cons_zero]
        simp [Ev.isItfFwdTo, hj.1, hj.2]
      · -- j = m + 4 : inside the capture block or the tail
        simp only [List.getD_cons_succ] at hj
        cases traces with
        | false =>
          simp only [Bool.false_eq_true, if_false, List.nil_append] at hj
          obtain ⟨i, hilt, hP⟩ := ih m h k hj
          refine ⟨i + 4, by omega, ?_⟩
          simp only [List.getD_cons_succ, Bool.false_eq_true, if_false, List.nil_append]
          exact hP
        | true =>
          simp only [if_true, List.cons_append, List.nil_append] at hj
          rcases m with _|⟨_|m2⟩
          · simp [Ev.isItfAddrTo] at hj
          · simp only [List.getD_cons_succ, List.getD_cons_zero] at hj
            simp [Ev.isItfAddrTo] at hj
          · simp only [List.getD_cons_succ] at hj
            obtain ⟨i, hilt, hP⟩ := ih m2 h k hj
            refine ⟨i + 6, by omega, ?_⟩
            simp only [List.getD_cons_succ, if_true, List.cons_append, List.nil_append]
            exact hP
    · rw [hsh] at hj
      rw [List.getD_eq_default _ _ (by simp)] at hj
      simp [noEv, Ev.isItfAddrTo] at hj

/-- Node file of the C2 counterexample run: one host `a`. -/
def cNodesC2 : List String := ["a 1.1.1.1/32"]

/-- C2 counterexample: the claim that every forwarding-enable command for a host
is issued before any address-assignment command for that host is false on the
code: for the one-host run the loopback address assignment is the very first
command (position 0) and the forwarding sysctls follow it (position 1), so a
forwarding-enable command does not precede it. -/
theorem C2_counterexample :
    ¬ (∀ i j, ((runTrace false false cNodesC2 [] []).getD i noEv).isGlobalFwdTo "a" = true →
        ((runTrace false false cNodesC2 [] []).getD j noEv).isLoAddrTo "a" = true → i < j) := by
  intro hcl
  have h10 := hcl 1 0 (by decide) (by decide)
  exact absurd h10 (by omega)

/-- C2 (amended): per host the order is loopback address assignment first, then
the global and loopback-interface forwarding enables, then the per-interface
blocks; concretely (1) every global/loopback forwarding-enable command precedes
every link-interface address assignment, (2) every global/loopback
forwarding-enable command for a host is preceded by that host's loopback
address assignment (the reverse of the claimed order), and (3) every
link-interface address assignment is preceded by a forwarding-enable sysctl for
the same interface. -/
theorem C2_order_amended (v4 traces : Bool) (nl ll pl : List String) :
    (∀ i j, ((runTrace v4 traces nl ll pl).getD i noEv).isGlobalFwd = true →
        ((runTrace v4 traces nl ll pl).getD j noEv).isItfAddr = true → i < j) ∧
    (∀ j h, ((runTrace v4 traces nl ll pl).getD j noEv).isGlobalFwdTo h = true →
        ∃ i, i < j ∧ ((runTrace v4 traces nl ll pl).getD i noEv).isLoAddrTo h = true) ∧
    (∀ j h k, ((runTrace v4 traces nl ll pl).getD j noEv).isItfAddrTo h k = true →
        ∃ i, i < j ∧ ((runTrace v4 traces nl ll pl).getD i noEv).isItfFwdTo h k = true) := by
  obtain ⟨ids, L1, L2, L3, heq, h1, h2, h3⟩ := runTrace_decomp v4 traces nl ll pl
  have h1c : ∀ x ∈ L1, x.inLoopSection = true := by
    rcases h1 with rfl | rfl
    · intro x hx; simp at hx
    · exact runLoopbacks_sect v4 ids nl
  have h2c : ∀ x ∈ L2, x.inLinkSection = true := by
    rcases h2 with rfl | rfl
    · intro x hx; simp at hx
    · exact runLinks_sect v4 traces ids ll
  have h3c : ∀ x ∈ L3, x.isRoute = true := by
    rcases h3 with rfl | rfl
    · intro x hx; simp at hx
    · exact runPaths_route v4 ids pl
  have heq' : runTrace v4 traces nl ll pl = L1 ++ (L2 ++ L3) := by
    rw [heq, List.append_assoc]
  refine ⟨?_, ?_, ?_⟩
  · rw [heq']
    refine seg_lt Ev.isGlobalFwd Ev.isItfAddr L1 (L2 ++ L3) noEv ?_ rfl ?_
    · intro x hx
      rcases List.mem_append.mp hx with hx2 | hx3
      · exact (inLink_not x (h2c x hx2)).2.1
      · exact (isRoute_not x (h3c x hx3)).2.1
    · intro x hx
      exact (inLoop_not x (h1c x hx)).2.1
  · intro j h hj
    rw [heq'] at hj
    have hB : ∀ x ∈ L2 ++ L3, Ev.isGlobalFwdTo h x = false := by
      intro x hx
      rcases List.mem_append.mp hx with hx2 | hx3
      · exact (inLink_not x (h2c x hx2)).2.2.1 h
      · exact (isRoute_not x (h3c x hx3)).2.2.2.2.2.1 h
    obtain ⟨hjlt, hget⟩ :=
      getD_in_left (Ev.isGlobalFwdTo h) L1 (L2 ++ L3) noEv hB rfl j hj
    rw [hget] at hj
    rcases h1 with rfl | rfl
    · simp at hjlt
    · obtain ⟨i, hilt, hP⟩ := runLoopbacks_addr_first v4 ids nl j h hj
      refine ⟨i, hilt, ?_⟩
      rw [heq', List.getD_append _ _ _ _ (by omega)]
      exact hP
  · intro j h k hj
    rw [heq'] at hj
    have hA : ∀ x ∈ L1, Ev.isItfAddrTo h k x = false := fun x hx =>
      (inLoop_not x (h1c x hx)).2.2.2.2.1 h k
    obtain ⟨hge, hget⟩ :=
      getD_in_right (Ev.isItfAddrTo h k) L1 (L2 ++ L3) noEv hA j hj
    rw [hget] at hj
    have hB : ∀ x ∈ L3, Ev.isItfAddrTo h k x = false := fun x hx =>
      (isRoute_not x (h3c x hx)).2.2.2.2.2.2.1 h k
    obtain ⟨hjlt2, hget2⟩ :=
      getD_in_left (Ev.isItfAddrTo h k) L2 L3 noEv hB rfl (j - L1.length) hj
    rw [hget2] at hj
    rcases h2 with rfl | rfl
    · simp at hjlt2
    · obtain ⟨i, hilt, hP⟩ := runLinks_itffwd_first v4 traces ids ll (j - L1.length) h k hj
      refine ⟨L1.length + i, by omega, ?_⟩
      rw [heq', List.getD_append_right _ _ _ _ (by omega)]
      have hsub : L1.length + i - L1.length = i := by omega
      rw [hsub, List.getD_append _ _ _ _ (by omega)]
      exact hP

/-- Witness for the amended C2 at the spec's worked example: position 1 is a
global forwarding enable, position 15 the first interface address assignment,
and the theorem yields 1 < 15. -/
theorem C2_order_amended_witness :
    ((runTrace false false wNodes wLinks wPaths).getD 1 noEv).isGlobalFwd = true ∧
    ((runTrace false false wNodes wLinks wPaths).getD 15 noEv).isItfAddr = true ∧
    1 < 15 :=
  ⟨by decide, by decide,
   (C2_order_amended false false wNodes wLinks wPaths).1 1 15 (by decide) (by decide)⟩

theorem simpleRun_err_none (v4 traces : Bool) (nl ll pl : List String)
    (h : (simpleRun v4 traces nl ll pl).2 = none) :
    ∃ ids nevs levs, buildNodes nl = .ok (nevs, ids) ∧ buildLinks ids [] ll = .ok levs ∧
      (runLoopbacks v4 ids nl).2 = none ∧ (runLinks v4 traces ids ll).2 = none ∧
      (runPaths v4 ids pl).2 = none ∧
      (simpleRun v4 traces nl ll pl).1 =
        (runLoopbacks v4 ids nl).1 ++ (runLinks v4 traces ids ll).1 ++
          (runPaths v4 ids pl).1 := by
  unfold simpleRun at h
  cases hbn : buildNodes nl with
  | error e => simp only [hbn] at h; exact Option.noConfusion h
  | ok p =>
    obtain ⟨nevs, ids⟩ := p
    simp only [hbn] at h
    cases hbl : buildLinks ids [] ll with
    | error e => simp only [hbl] at h; exact Option.noConfusion h
    | ok levs =>
      simp only [hbl] at h
      cases hr1 : (runLoopbacks v4 ids nl).2 with
      | some e => simp only [hr1] at h; exact Option.noConfusion h
      | none =>
        simp only [hr1] at h
        cases hr2 : (runLinks v4 traces ids ll).2 with
        | some e => simp only [hr2] at h; exact Option.noConfusion h
        | none =>
          simp only [hr2] at h
          refine ⟨ids, nevs, levs, rfl, hbl, hr1, hr2, h, ?_⟩
          simp [simpleRun, hbn, hbl, hr1, hr2]

theorem runLinks_reset_count (v4 : Bool) (hosts : List String) :
    ∀ lines, (runLinks v4 true hosts lines).2 = none →
      (runLinks v4 true hosts lines).1.count Ev.resetPcapDir = lines.countP nonBlank := by
  intro lines
  induction lines with
  | nil => intro h; rfl
  | cons line rest ih =>
    intro h
    rcases runLinks_cons_shape v4 true hosts line rest with
      ⟨hbl, hsh⟩ | ⟨id1, f2, itf, link, f5, hnb, hf, hmem, hsh⟩ | ⟨e, hsh⟩
    · rw [hsh] at h ⊢
      rw [ih h, List.countP_cons]
      simp [nonBlank, hbl]
    · rw [hsh] at h ⊢
      simp only at h
      rw [List.countP_cons]
      simp only [List.count_cons, List.count_append]
      rw [ih h]
      simp [nonBlank, hnb, Ev.resetPcapDir, List.count_cons]
      omega
    · rw [hsh] at h
      simp at h

theorem capChainOK_append_of (A B : List Ev) (hB : ∀ q, capChainOK q B = true) :
    ∀ p, capChainOK p A = true → capChainOK p (A ++ B) = true := by
  induction A with
  | nil => intro p _; simpa using hB p
  | cons a A ih =>
    intro p hA
    simp only [List.cons_append, capChainOK] at hA ⊢
    rw [Bool.and_eq_true] at hA ⊢
    exact ⟨hA.1, ih a hA.2⟩

theorem capChainOK_of_noTcp (l : List Ev) (h : ∀ x ∈ l, x.isTcpdump = false) :
    ∀ p, capChainOK p l = true := by
  induction l with
  | nil => intro p; rfl
  | cons a l ih =>
    intro p
    have ha := h a (List.mem_cons_self a l)
    have hrec := ih (fun x hx => h x (List.mem_cons_of_mem a hx)) a
    simp [capChainOK, ha, hrec]

theorem runLinks_capChain (v4 traces : Bool) (hosts : List String) :
    ∀ lines p, capChainOK p (runLinks v4 traces hosts lines).1 = true := by
  intro lines
  induction lines with
  | nil => intro p; rfl
  | cons line rest ih =>
    intro p
    rcases runLinks_cons_shape v4 traces hosts line rest with
      ⟨hbl, hsh⟩ | ⟨id1, f2, itf, link, f5, hnb, hf, hmem, hsh⟩ | ⟨e, hsh⟩
    · rw [hsh]; exact ih p
    · rw [hsh]
      cases traces
      · simp only [Bool.false_eq_true, if_false, List.nil_append]
        simp [capChainOK, Ev.isTcpdump, Ev.isReset]
        exact ih _
      · simp only [if_true, List.cons_append, List.nil_append]
        simp [capChainOK, Ev.isTcpdump, Ev.isReset]
        exact ih _
    · rw [hsh]
      rfl

/-- Node file of the C4/C10 counterexample runs. -/
def cNodesC4 : List String := ["a 1.1.1.1/32", "b 2.2.2.2/32"]

/-- Link file of the C4 counterexample run: two records (one physical link,
both orientations). -/
def cLinksC4 : List String := ["a b 0 10.0.0.5/30 2.2.2.2/32", "b a 0 10.0.0.6/30 1.1.1.1/32"]

/-- C4 counterexample: with tracing enabled and two link records, the capture
directory is removed and recreated twice in one run (not at most once), and the
second reset (position 22) happens after the first capture has started
(position 17). -/
theorem C4_counterexample :
    (runTrace false true cNodesC4 cLinksC4 []).count Ev.resetPcapDir = 2 ∧
    ¬ ((runTrace false true cNodesC4 cLinksC4 []).count Ev.resetPcapDir ≤ 1) ∧
    (runTrace false true cNodesC4 cLinksC4 []).length = 24 ∧
    ((runTrace false true cNodesC4 cLinksC4 []).getD 17 noEv).isTcpdump = true ∧
    ((runTrace false true cNodesC4 cLinksC4 []).getD 22 noEv).isReset = true :=
  ⟨by decide, by decide, by decide, by decide, by decide⟩

/-- C4 (amended): with tracing enabled, a successful run removes and recreates
the capture directory once per non-blank link record (not once per run), each
time immediately before that record's capture-start command; every
capture-start is immediately preceded by a reset. -/
theorem C4_reset_amended (v4 : Bool) (nl ll pl : List String)
    (h : runErr v4 true nl ll pl = none) :
    (runTrace v4 true nl ll pl).count Ev.resetPcapDir = ll.countP nonBlank ∧
    capOK (runTrace v4 true nl ll pl) = true := by
  obtain ⟨ids, nevs, levs, hbn, hbl, hr1, hr2, hr3, htr⟩ :=
    simpleRun_err_none v4 true nl ll pl h
  have htr' : runTrace v4 true nl ll pl =
      (runLoopbacks v4 ids nl).1 ++ (runLinks v4 true ids ll).1 ++
        (runPaths v4 ids pl).1 := htr
  constructor
  · rw [htr', List.count_append, List.count_append]
    have c1 : (runLoopbacks v4 ids nl).1.count Ev.resetPcapDir = 0 := by
      rw [List.count_eq_zero]
      intro hm
      have hs := runLoopbacks_sect v4 ids nl _ hm
      simp [Ev.inLoopSection] at hs
    have c3 : (runPaths v4 ids pl).1.count Ev.resetPcapDir = 0 := by
      rw [List.count_eq_zero]
      intro hm
      have hs := runPaths_route v4 ids pl _ hm
      simp [Ev.isRoute] at hs
    rw [c1, c3, runLinks_reset_count v4 ids ll hr2]
    omega
  · unfold capOK
    rw [htr']
    have nA : ∀ x ∈ (runLoopbacks v4 ids nl).1, x.isTcpdump = false := fun x hx =>
      (inLoop_not x (runLoopbacks_sect v4 ids nl x hx)).2.2.1
    have nC : ∀ x ∈ (runPaths v4 ids pl).1, x.isTcpdump = false := fun x hx =>
      (isRoute_not x (runPaths_route v4 ids pl x hx)).2.2.2.1
    refine capChainOK_append_of _ _ (fun q => capChainOK_of_noTcp _ nC q) _ ?_
    refine capChainOK_append_of _ _ (fun q => runLinks_capChain v4 true ids ll q) _ ?_
    exact capChainOK_of_noTcp _ nA _

/-- Witness for the amended C4: on the spec's worked example with tracing
enabled the run succeeds, performs exactly one reset per non-blank link record
(two), and every capture-start is immediately preceded by a reset. -/
theorem C4_reset_amended_witness :
    runErr false true wNodes wLinks wPaths = none ∧
    ((runTrace false true wNodes wLinks wPaths).count Ev.resetPcapDir =
        wLinks.countP nonBlank ∧
      capOK (runTrace false true wNodes wLinks wPaths) = true) :=
  ⟨by decide, C4_reset_amended false wNodes wLinks wPaths (by decide)⟩

theorem buildNodes_cons_eq (line : String) (rest : List String) :
    buildNodes (line :: rest) =
      (if isBlank line then buildNodes rest
       else
        match fields line with
        | [nodeId, loopback] =>
          match buildNodes rest with
          | .ok (evs, ids) =>
              .ok (BEv.addHost nodeId loopback s!"00:00:00:00:00:{nodeId}" :: evs,
                   nodeId :: ids)
          | .error e => .error e
        | _ => .error (Err.malformed loopbacksFile line)) := rfl

theorem buildLinks_cons_eq (ids : List String) (acc : List (String × String))
    (line : String) (rest : List String) :
    buildLinks ids acc (line :: rest) =
      (if isBlank line then buildLinks ids acc rest
       else
        match fields line with
        | [id1, id2, _, _, _] =>
          if (id1, id2) ∈ acc ∨ (id2, id1) ∈ acc then
            buildLinks ids acc rest
          else if id1 ∈ ids then
            if id2 ∈ ids then
              match buildLinks ids ((id1, id2) :: acc) rest with
              | .ok evs => .ok (BEv.addLink id1 id2 :: evs)
              | .error e => .error e
            else .error (Err.unknownNode linksFile id2)
          else .error (Err.unknownNode linksFile id1)
        | _ => .error (Err.malformed linksFile line)) := rfl

theorem buildNodes_blank (pre post : List String) :
    buildNodes (pre ++ "" :: post) = buildNodes (pre ++ post) := by
  induction pre with
  | nil =>
    show buildNodes ("" :: post) = buildNodes post
    rw [buildNodes_cons_eq]
    simp [isBlank]
  | cons line rest ih =>
    show buildNodes (line :: (rest ++ "" :: post)) = buildNodes (line :: (rest ++ post))
    rw [buildNodes_cons_eq, buildNodes_cons_eq, ih]

theorem buildLinks_blank (ids : List String) (acc : List (String × String))
    (pre post : List String) :
    buildLinks ids acc (pre ++ "" :: post) = buildLinks ids acc (pre ++ post) := by
  induction pre generalizing acc with
  | nil =>
    show buildLinks ids acc ("" :: post) = buildLinks ids acc post
    rw [buildLinks_cons_eq]
    simp [isBlank]
  | cons line rest ih =>
    show buildLinks ids acc (line :: (rest ++ "" :: post)) =
      buildLinks ids acc (line :: (rest ++ post))
    rw [buildLinks_cons_eq, buildLinks_cons_eq]
    simp only [ih]

theorem runLoopbacks_blank (v4 : Bool) (hosts : List String) (pre post : List String) :
    runLoopbacks v4 hosts (pre ++ "" :: post) = runLoopbacks v4 hosts (pre ++ post) := by
  induction pre with
  | nil =>
    show runLoopbacks v4 hosts ("" :: post) = runLoopbacks v4 hosts post
    rw [runLoopbacks_cons_eq]
    simp [isBlank]
  | cons line rest ih =>
    show runLoopbacks v4 hosts (line :: (rest ++ "" :: post)) =
      runLoopbacks v4 hosts (line :: (rest ++ post))
    rw [runLoopbacks_cons_eq, runLoopbacks_cons_eq, ih]

theorem runLinks_blank (v4 traces : Bool) (hosts : List String) (pre post : List String) :
    runLinks v4 traces hosts (pre ++ "" :: post) = runLinks v4 traces hosts (pre ++ post) := by
  induction pre with
  | nil =>
    show runLinks v4 traces hosts ("" :: post) = runLinks v4 traces hosts post
    rw [runLinks_cons_eq]
    simp [isBlank]
  | cons line rest ih =>
    show runLinks v4 traces hosts (line :: (rest ++ "" :: post)) =
      runLinks v4 traces hosts (line :: (rest ++ post))
    rw [runLinks_cons_eq, runLinks_cons_eq, ih]

theorem runPaths_blank (v4 : Bool) (hosts : List String) (pre post : List String) :
    runPaths v4 hosts (pre ++ "" :: post) = runPaths v4 hosts (pre ++ post) := by
  induction pre with
  | nil =>
    show runPaths v4 hosts ("" :: post) = runPaths v4 hosts post
    rw [runPaths_cons_eq]
    simp [isBlank]
  | cons line rest ih =>
    show runPaths v4 hosts (line :: (rest ++ "" :: post)) =
      runPaths v4 hosts (line :: (rest ++ post))
    rw [runPaths_cons_eq, runPaths_cons_eq, ih]

/-- C9: blank (empty) lines anywhere in any of the three input files, trailing
ones included, are skipped silently: inserting one changes neither the
topology build (its engine calls and its error, if any) nor the full run's
command trace and error; in particular a blank line produces no record, issues
no command and raises no error. -/
theorem C9_blank_lines_skipped (v4 traces : Bool) (pre post nl ll pl : List String) :
    build (pre ++ "" :: post) ll = build (pre ++ post) ll ∧
    build nl (pre ++ "" :: post) = build nl (pre ++ post) ∧
    simpleRun v4 traces (pre ++ "" :: post) ll pl = simpleRun v4 traces (pre ++ post) ll pl ∧
    simpleRun v4 traces nl (pre ++ "" :: post) pl = simpleRun v4 traces nl (pre ++ post) pl ∧
    simpleRun v4 traces nl ll (pre ++ "" :: post) = simpleRun v4 traces nl ll (pre ++ post) := by
  refine ⟨?_, ?_, ?_, ?_, ?_⟩
  · simp only [build, buildNodes_blank]
  · simp only [build, buildLinks_blank]
  · simp only [simpleRun, buildNodes_blank, runLoopbacks_blank]
  · simp only [simpleRun, buildLinks_blank, runLinks_blank]
  · simp only [simpleRun, runPaths_blank]

theorem build_ok_elim (nl ll : List String) (evs : List BEv)
    (h : build nl ll = .ok evs) :
    ∃ nevs ids levs, buildNodes nl = .ok (nevs, ids) ∧
      buildLinks ids [] ll = .ok levs ∧ evs = nevs ++ levs := by
  unfold build at h
  cases hbn : buildNodes nl with
  | error e => simp only [hbn] at h; exact Except.noConfusion h
  | ok p =>
    obtain ⟨nevs, ids⟩ := p
    simp only [hbn] at h
    cases hbl : buildLinks ids [] ll with
    | error e => simp only [hbl] at h; exact Except.noConfusion h
    | ok levs =>
      simp only [hbl] at h
      injection h with h2
      exact ⟨nevs, ids, levs, rfl, hbl, h2.symm⟩

theorem buildNodes_linkPairs :
    ∀ (lines : List String) (evs : List BEv) (ids : List String),
      buildNodes lines = .ok (evs, ids) → linkPairs evs = [] := by
  intro lines
  induction lines with
  | nil =>
    intro evs ids h
    simp only [buildNodes] at h
    injection h with h2
    injection h2 with h3 h4
    subst h3
    rfl
  | cons line rest ih =>
    intro evs ids h
    rw [buildNodes_cons_eq] at h
    split at h
    · exact ih evs ids h
    · split at h
      · next nodeId loopback heq =>
        cases hrec : buildNodes rest with
        | error e => rw [hrec] at h; exact Except.noConfusion h
        | ok p =>
          obtain ⟨evs2, ids2⟩ := p
          rw [hrec] at h
          injection h with h2
          injection h2 with h3 h4
          subst h3
          simp only [linkPairs, List.filterMap_cons]
          exact ih evs2 ids2 hrec
      · exact Except.noConfusion h

theorem buildLinks_hostIds (ids : List String) :
    ∀ (lines : List String) (acc : List (String × String)) (evs : List BEv),
      buildLinks ids acc lines = .ok evs → hostIds evs = [] := by
  intro lines
  induction lines with
  | nil =>
    intro acc evs h
    simp only [buildLinks] at h
    injection h with h2
    subst h2
    rfl
  | cons line rest ih =>
    intro acc evs h
    rw [buildLinks_cons_eq] at h
    split at h
    · exact ih acc evs h
    · split at h
      · split at h
        · exact ih acc evs h
        · split at h
          · split at h
            · next id1 id2 f3 f4 f5 heq hdup hid1 hid2 =>
              cases hrec : buildLinks ids ((id1, id2) :: acc) rest with
              | error e => rw [hrec] at h; exact Except.noConfusion h
              | ok evs2 =>
                rw [hrec] at h
                injection h with h2
                subst h2
                simp only [hostIds, List.filterMap_cons]
                exact ih _ evs2 hrec
            · exact Except.noConfusion h
          · exact Except.noConfusion h
      · exact Except.noConfusion h

theorem buildNodes_hostIds :
    ∀ (lines : List String) (evs : List BEv) (ids : List String),
      buildNodes lines = .ok (evs, ids) →
      hostIds evs = (nodeRecords lines).map Prod.fst ∧
        ids = (nodeRecords lines).map Prod.fst := by
  intro lines
  induction lines with
  | nil =>
    intro evs ids h
    simp only [buildNodes] at h
    injection h with h2
    injection h2 with h3 h4
    subst h3
    subst h4
    exact ⟨rfl, rfl⟩
  | cons line rest ih =>
    intro evs ids h
    rw [buildNodes_cons_eq] at h
    split at h
    · next hb =>
      have hnr : nodeRecords (line :: rest) = nodeRecords rest := by
        simp [nodeRecords, List.filterMap_cons, hb]
      rw [hnr]
      exact ih evs ids h
    · next hnb =>
      have hb2 : isBlank line = false := by
        cases hcase : isBlank line
        · rfl
        · exact absurd hcase hnb
      split at h
      · next nodeId loopback heq =>
        have hnr : nodeRecords (line :: rest) = (nodeId, loopback) :: nodeRecords rest := by
          simp [nodeRecords, List.filterMap_cons, hb2, heq]
        cases hrec : buildNodes rest with
        | error e => rw [hrec] at h; exact Except.noConfusion h
        | ok p =>
          obtain ⟨evs2, ids2⟩ := p
          rw [hrec] at h
          injection h with h2
          injection h2 with h3 h4
          subst h3
          subst h4
          obtain ⟨ha, hb⟩ := ih evs2 ids2 hrec
          rw [hnr]
          constructor
          · simp only [hostIds, List.filterMap_cons, List.map_cons]
            rw [hostIds] at ha
            rw [ha]
          · simp only [List.map_cons]
            rw [hb]
      · exact Except.noConfusion h

/-- The engine calls of the spec's worked example build: two hosts, one link. -/
def wBuildEvs : List BEv :=
  [BEv.addHost "A" "10.0.0.1/32" "00:00:00:00:00:A",
   BEv.addHost "B" "10.0.0.2/32" "00:00:00:00:00:B",
   BEv.addLink "A" "B"]

/-- Node file of the C8 counterexample: two well-formed lines with the same id. -/
def cNodesC8 : List String := ["a 1.1.1.1/32", "a 2.2.2.2/32"]

/-- C8 counterexample: a node file with two well-formed lines whose ids
coincide produces two host registrations with the same id, so the registered
hosts are not pairwise distinct (and the engine, keyed by id, ends up with one
host, not two). -/
theorem C8_counterexample :
    (nodeRecords cNodesC8).length = 2 ∧
    hostIdsOf (build cNodesC8 []) = ["a", "a"] ∧
    ¬ (hostIdsOf (build cNodesC8 [])).Nodup :=
  ⟨by decide, by decide, by decide⟩

/-- C8 (amended): a successful build makes exactly one host-registration call
per well-formed node line, in order, carrying that line's id; hence the
registered ids are pairwise distinct exactly when the node file's ids are.
(The unqualified claim fails when the node file repeats an id.) -/
theorem C8_hosts_amended (nl ll : List String) (evs : List BEv)
    (h : build nl ll = .ok evs) :
    hostIds evs = (nodeRecords nl).map Prod.fst ∧
    (hostIds evs).length = (nodeRecords nl).length ∧
    (((nodeRecords nl).map Prod.fst).Nodup → (hostIds evs).Nodup) := by
  obtain ⟨nevs, ids, levs, hbn, hbl, rfl⟩ := build_ok_elim nl ll evs h
  have hids : hostIds (nevs ++ levs) = (nodeRecords nl).map Prod.fst := by
    have h1 : hostIds nevs = (nodeRecords nl).map Prod.fst :=
      (buildNodes_hostIds nl nevs ids hbn).1
    have h2 : hostIds levs = [] := buildLinks_hostIds ids ll [] levs hbl
    simp only [hostIds, List.filterMap_append] at h1 h2 ⊢
    rw [h1, h2, List.append_nil]
  refine ⟨hids, ?_, ?_⟩
  · rw [hids, List.length_map]
  · intro hnd
    rw [hids]
    exact hnd

/-- Witness for the amended C8 at the spec's worked example: the build
succeeds and registers exactly the node file's ids, in order. -/
theorem C8_hosts_amended_witness :
    build wNodes wLinks = Except.ok wBuildEvs ∧
    hostIds wBuildEvs = (nodeRecords wNodes).map Prod.fst :=
  ⟨by decide, (C8_hosts_amended wNodes wLinks wBuildEvs (by decide)).1⟩

theorem mem_map_upair (acc : List (String × String)) (a b : String) :
    upair (a, b) ∈ acc.map upair ↔ ((a, b) ∈ acc ∨ (b, a) ∈ acc) := by
  constructor
  · intro h
    obtain ⟨⟨c, d⟩, hm, he⟩ := List.mem_map.mp h
    rcases Sym2.eq_iff.mp he with ⟨rfl, rfl⟩ | ⟨rfl, rfl⟩
    · exact Or.inl hm
    · exact Or.inr hm
  · rintro (hm | hm)
    · exact List.mem_map.mpr ⟨(a, b), hm, rfl⟩
    · exact List.mem_map.mpr ⟨(b, a), hm, Sym2.eq_swap⟩

theorem buildLinks_calls (ids : List String) :
    ∀ (lines : List String) (acc : List (String × String)) (evs : List BEv),
      buildLinks ids acc lines = .ok evs →
      ((linkPairs evs).map upair).Nodup ∧
      (∀ s, s ∈ (linkPairs evs).map upair ↔
        (s ∈ (linkEndpoints lines).map upair ∧ s ∉ acc.map upair)) := by
  intro lines
  induction lines with
  | nil =>
    intro acc evs h
    simp only [buildLinks] at h
    injection h with h2
    subst h2
    refine ⟨List.nodup_nil, ?_⟩
    intro s
    simp [linkPairs, linkEndpoints]
  | cons line rest ih =>
    intro acc evs h
    rw [buildLinks_cons_eq] at h
    split at h
    · next hb =>
      obtain ⟨hnd, hiff⟩ := ih acc evs h
      have hle : linkEndpoints (line :: rest) = linkEndpoints rest := by
        simp [linkEndpoints, List.filterMap_cons, hb]
      rw [hle]
      exact ⟨hnd, hiff⟩
    · next hnb =>
      have hb2 : isBlank line = false := by
        cases hcase : isBlank line
        · rfl
        · exact absurd hcase hnb
      split at h
      · next id1 id2 f3 f4 f5 heq =>
        have hle : linkEndpoints (line :: rest) = (id1, id2) :: linkEndpoints rest := by
          simp [linkEndpoints, List.filterMap_cons, hb2, heq]
        split at h
        · next hdup =>
          obtain ⟨hnd, hiff⟩ := ih acc evs h
          refine ⟨hnd, ?_⟩
          intro s
          rw [hiff s, hle]
          simp only [List.map_cons, List.mem_cons]
          constructor
          · rintro ⟨hmem, hnacc⟩
            exact ⟨Or.inr hmem, hnacc⟩
          · rintro ⟨hor, hnacc⟩
            rcases hor with hsEq | hmem
            · exfalso
              apply hnacc
              rw [hsEq]
              exact (mem_map_upair acc id1 id2).mpr hdup
            · exact ⟨hmem, hnacc⟩
        · next hdup =>
          split at h
          · next hid1 =>
            split at h
            · next hid2 =>
              cases hrec : buildLinks ids ((id1, id2) :: acc) rest with
              | error e => rw [hrec] at h; exact Except.noConfusion h
              | ok evs2 =>
                rw [hrec] at h
                injection h with h2
                subst h2
                obtain ⟨hnd, hiff⟩ := ih ((id1, id2) :: acc) evs2 hrec
                have hlp : linkPairs (BEv.addLink id1 id2 :: evs2) =
                    (id1, id2) :: linkPairs evs2 := by
                  simp [linkPairs, List.filterMap_cons]
                constructor
                · rw [hlp]
                  simp only [List.map_cons]
                  rw [List.nodup_cons]
                  refine ⟨?_, hnd⟩
                  intro hmem
                  have hcontra := (hiff _).mp hmem
                  apply hcontra.2
                  simp
                · intro s
                  rw [hlp, hle]
                  simp only [List.map_cons, List.mem_cons]
                  constructor
                  · rintro (rfl | hmem)
                    · refine ⟨Or.inl rfl, ?_⟩
                      intro hacc
                      exact hdup ((mem_map_upair acc id1 id2).mp hacc)
                    · obtain ⟨hm, hn⟩ := (hiff s).mp hmem
                      refine ⟨Or.inr hm, fun hacc => hn ?_⟩
                      simp only [List.map_cons, List.mem_cons]
                      exact Or.inr hacc
                  · rintro ⟨hor, hnacc⟩
                    rcases hor with hsEq | hmem
                    · exact Or.inl hsEq
                    · by_cases hs : s = upair (id1, id2)
                      · exact Or.inl hs
                      · refine Or.inr ((hiff s).mpr ⟨hmem, ?_⟩)
                        simp only [List.map_cons, List.mem_cons]
                        rintro (h1 | h2)
                        · exact hs h1
                        · exact hnacc h2
            · exact Except.noConfusion h
          · exact Except.noConfusion h
      · exact Except.noConfusion h

theorem build_calls_spec (nl ll : List String) (evs : List BEv)
    (h : build nl ll = .ok evs) :
    ((linkPairs evs).map upair).Nodup ∧
    (∀ s, s ∈ (linkPairs evs).map upair ↔ s ∈ (linkEndpoints ll).map upair) := by
  obtain ⟨nevs, ids, levs, hbn, hbl, rfl⟩ := build_ok_elim nl ll evs h
  have hnl : linkPairs (nevs ++ levs) = linkPairs levs := by
    have h0 := buildNodes_linkPairs nl nevs ids hbn
    simp only [linkPairs, List.filterMap_append] at h0 ⊢
    rw [h0, List.nil_append]
  obtain ⟨hnd, hiff⟩ := buildLinks_calls ids ll [] levs hbl
  rw [hnl]
  refine ⟨hnd, ?_⟩
  intro s
  rw [hiff s]
  simp

theorem build_calls_len (nl ll : List String) (evs : List BEv)
    (h : build nl ll = .ok evs) :
    (linkPairs evs).length = ((linkEndpoints ll).map upair).dedup.length := by
  obtain ⟨hnd, hiff⟩ := build_calls_spec nl ll evs h
  have hperm : ((linkPairs evs).map upair).Perm ((linkEndpoints ll).map upair).dedup := by
    rw [List.perm_ext_iff_of_nodup hnd (List.nodup_dedup _)]
    intro s
    rw [hiff s, List.mem_dedup]
  have hlen := hperm.length_eq
  rw [List.length_map] at hlen
  exact hlen

/-- C1: a successful build creates exactly one engine link per distinct
undirected endpoint pair of the link file: the created links are pairwise
distinct as unordered pairs, they cover exactly the unordered endpoint pairs
occurring in the input, a pair present in both orientations yields exactly one
creation call, the number of calls equals the number of distinct undirected
pairs, and that number is invariant under permutation (reordering/repetition)
of the link lines. -/
theorem C1_link_dedup (nl ll : List String) (evs : List BEv)
    (h : build nl ll = .ok evs) :
    ((linkPairs evs).map upair).Nodup ∧
    (∀ s, s ∈ (linkPairs evs).map upair ↔ s ∈ (linkEndpoints ll).map upair) ∧
    (∀ a b, (a, b) ∈ linkEndpoints ll → (b, a) ∈ linkEndpoints ll →
      ((linkPairs evs).map upair).count (upair (a, b)) = 1) ∧
    (linkPairs evs).length = ((linkEndpoints ll).map upair).dedup.length ∧
    (∀ ll2 evs2, ll.Perm ll2 → build nl ll2 = .ok evs2 →
      (linkPairs evs2).length = (linkPairs evs).length) := by
  obtain ⟨hnd, hiff⟩ := build_calls_spec nl ll evs h
  refine ⟨hnd, hiff, ?_, build_calls_len nl ll evs h, ?_⟩
  · intro a b hab hba
    have hmem : upair (a, b) ∈ (linkPairs evs).map upair := by
      rw [hiff]
      exact List.mem_map.mpr ⟨(a, b), hab, rfl⟩
    exact List.count_eq_one_of_mem hnd hmem
  · intro ll2 evs2 hperm h2
    rw [build_calls_len nl ll2 evs2 h2, build_calls_len nl ll evs h]
    have hp : ((linkEndpoints ll).map upair).Perm ((linkEndpoints ll2).map upair) :=
      (hperm.filterMap _).map upair
    exact (hp.dedup.length_eq).symm

/-- Witness for C1 at the spec's worked example: both orientations of the
A-B link appear in the input and exactly one link-creation call is made. -/
theorem C1_link_dedup_witness :
    build wNodes wLinks = Except.ok wBuildEvs ∧
    (linkPairs wBuildEvs).length =
      ((linkEndpoints wLinks).map upair).dedup.length :=
  ⟨by decide, (C1_link_dedup wNodes wLinks wBuildEvs (by decide)).2.2.2.1⟩

theorem bool_false_of_not (b : Bool) (h : ¬ b = true) : b = false := by
  cases hc : b
  · rfl
  · exact absurd hc h

theorem buildNodes_ok_of_wf :
    ∀ lines, hasBad 2 lines = false → ∃ evs ids, buildNodes lines = .ok (evs, ids) := by
  intro lines
  induction lines with
  | nil => intro _; exact ⟨[], [], rfl⟩
  | cons line rest ih =>
    intro h
    have hall : (line :: rest).all (wfCount 2) = true := by
      cases hc : (line :: rest).all (wfCount 2)
      · rw [hasBad, hc] at h; exact Bool.noConfusion h
      · rfl
    rw [List.all_cons, Bool.and_eq_true] at hall
    obtain ⟨hline, hrest⟩ := hall
    have hrest2 : hasBad 2 rest = false := by rw [hasBad, hrest]; rfl
    obtain ⟨evs, ids, hok⟩ := ih hrest2
    rw [buildNodes_cons_eq]
    by_cases hb : isBlank line = true
    · rw [if_pos hb]; exact ⟨evs, ids, hok⟩
    · rw [if_neg hb]
      rw [wfCount, bool_false_of_not _ hb, Bool.false_or] at hline
      have hlen : (fields line).length = 2 := by simpa using hline
      obtain ⟨a, b, hf⟩ : ∃ a b, fields line = [a, b] := by
        rcases hfl : fields line with _ | ⟨a, _ | ⟨b, _ | ⟨c, t⟩⟩⟩
        · rw [hfl] at hlen; simp at hlen
        · rw [hfl] at hlen; simp at hlen
        · exact ⟨a, b, rfl⟩
        · rw [hfl] at hlen; simp at hlen
      rw [hf, hok]
      exact ⟨_, _, rfl⟩

theorem buildNodes_malformed :
    ∀ lines, hasBad 2 lines = true →
      ∃ l, buildNodes lines = .error (Err.malformed loopbacksFile l) := by
  intro lines
  induction lines with
  | nil => intro h; simp [hasBad] at h
  | cons line rest ih =>
    intro h
    rw [buildNodes_cons_eq]
    by_cases hb : isBlank line = true
    · rw [if_pos hb]
      apply ih
      rw [hasBad, List.all_cons, wfCount, hb, Bool.true_or, Bool.true_and] at h
      rw [hasBad]
      exact h
    · rw [if_neg hb]
      have hb2 : isBlank line = false := bool_false_of_not _ hb
      rcases hfl : fields line with _ | ⟨a, _ | ⟨b, _ | ⟨c, t⟩⟩⟩
      · simp only [hfl]; exact ⟨line, rfl⟩
      · simp only [hfl]; exact ⟨line, rfl⟩
      · simp only [hfl]
        have hwf : wfCount 2 line = true := by
          rw [wfCount, hfl]
          simp
        rw [hasBad, List.all_cons, hwf, Bool.true_and] at h
        obtain ⟨l, herr⟩ := ih (by rw [hasBad]; exact h)
        rw [herr]
        exact ⟨l, rfl⟩
      · simp only [hfl]; exact ⟨line, rfl⟩

theorem buildNodes_lines_wf :
    ∀ lines evs ids, buildNodes lines = .ok (evs, ids) →
      ∀ l ∈ lines, isBlank l = false → ∃ a b, fields l = [a, b] ∧ a ∈ ids := by
  intro lines
  induction lines with
  | nil => intro evs ids _ l hl; simp at hl
  | cons line rest ih =>
    intro evs ids h l hl hnbl
    rw [buildNodes_cons_eq] at h
    split at h
    · next hb =>
      rcases List.mem_cons.mp hl with rfl | hl2
      · rw [hb] at hnbl; exact Bool.noConfusion hnbl
      · exact ih evs ids h l hl2 hnbl
    · split at h
      · next nodeId loopback heq =>
        cases hrec : buildNodes rest with
        | error e => rw [hrec] at h; exact Except.noConfusion h
        | ok p =>
          obtain ⟨evs2, ids2⟩ := p
          rw [hrec] at h
          injection h with h2
          injection h2 with h3 h4
          subst h4
          rcases List.mem_cons.mp hl with rfl | hl2
          · exact ⟨nodeId, loopback, heq, List.mem_cons_self nodeId ids2⟩
          · obtain ⟨a, b, hf, ha⟩ := ih evs2 ids2 hrec l hl2 hnbl
            exact ⟨a, b, hf, List.mem_cons_of_mem nodeId ha⟩
      · exact Except.noConfusion h

theorem runLoopbacks_none (v4 : Bool) (hosts : List String) :
    ∀ lines, (∀ l ∈ lines, isBlank l = false → ∃ a b, fields l = [a, b] ∧ a ∈ hosts) →
      (runLoopbacks v4 hosts lines).2 = none := by
  intro lines
  induction lines with
  | nil => intro _; rfl
  | cons line rest ih =>
    intro h
    rw [runLoopbacks_cons_eq]
    by_cases hb : isBlank line = true
    · rw [if_pos hb]
      exact ih fun l hl => h l (List.mem_cons_of_mem line hl)
    · rw [if_neg hb]
      obtain ⟨a, b, hf, ha⟩ :=
        h line (List.mem_cons_self line rest) (bool_false_of_not _ hb)
      simp only [hf]
      rw [if_pos ha]
      exact ih fun l hl => h l (List.mem_cons_of_mem line hl)

theorem goodLinkLine_elim (ids : List String) (l : String)
    (hnb : isBlank l = false) (hg : goodLinkLine ids l = true) :
    ∃ a b c d e, fields l = [a, b, c, d, e] ∧ a ∈ ids ∧ b ∈ ids := by
  unfold goodLinkLine at hg
  rw [if_neg (by simp [hnb])] at hg
  rcases hfl : fields l with _ | ⟨a, _ | ⟨b, _ | ⟨c, _ | ⟨d, _ | ⟨e, _ | ⟨f, t⟩⟩⟩⟩⟩⟩ <;>
    rw [hfl] at hg
  · exact Bool.noConfusion hg
  · exact Bool.noConfusion hg
  · exact Bool.noConfusion hg
  · exact Bool.noConfusion hg
  · exact Bool.noConfusion hg
  · rw [Bool.and_eq_true] at hg
    exact ⟨a, b, c, d, e, rfl, of_decide_eq_true hg.1, of_decide_eq_true hg.2⟩
  · exact Bool.noConfusion hg

theorem goodPathLine_elim (ids : List String) (l : String)
    (hnb : isBlank l = false) (hg : goodPathLine ids l = true) :
    ∃ a b c d, fields l = [a, b, c, d] ∧ a ∈ ids := by
  unfold goodPathLine at hg
  rw [if_neg (by simp [hnb])] at hg
  rcases hfl : fields l with _ | ⟨a, _ | ⟨b, _ | ⟨c, _ | ⟨d, _ | ⟨e, t⟩⟩⟩⟩⟩ <;>
    rw [hfl] at hg
  · exact Bool.noConfusion hg
  · exact Bool.noConfusion hg
  · exact Bool.noConfusion hg
  · exact Bool.noConfusion hg
  · exact ⟨a, b, c, d, rfl, of_decide_eq_true hg⟩
  · exact Bool.noConfusion hg

theorem buildLinks_ok_good (ids : List String) :
    ∀ lines acc evs, buildLinks ids acc lines = .ok evs →
      (∀ x ∈ acc, (Prod.fst x) ∈ ids ∧ (Prod.snd x) ∈ ids) →
      ∀ l ∈ lines, goodLinkLine ids l = true := by
  intro lines
  induction lines with
  | nil => intro acc evs _ _ l hl; simp at hl
  | cons line rest ih =>
    intro acc evs h hacc l hl
    rw [buildLinks_cons_eq] at h
    split at h
    · next hb =>
      rcases List.mem_cons.mp hl with rfl | hl2
      · simp [goodLinkLine, hb]
      · exact ih acc evs h hacc l hl2
    · next hnb =>
      have hb2 : isBlank line = false := bool_false_of_not _ hnb
      split at h
      · next id1 id2 f3 f4 f5 heq =>
        split at h
        · next hdup =>
          rcases List.mem_cons.mp hl with rfl | hl2
          · have hmem : id1 ∈ ids ∧ id2 ∈ ids := by
              rcases hdup with hd | hd
              · exact hacc (id1, id2) hd
              · obtain ⟨h1, h2⟩ := hacc (id2, id1) hd
                exact ⟨h2, h1⟩
            unfold goodLinkLine
            rw [if_neg (by simp [hb2]), heq]
            simp [hmem.1, hmem.2]
          · exact ih acc evs h hacc l hl2
        · next hdup =>
          split at h
          · next hid1 =>
            split at h
            · next hid2 =>
              cases hrec : buildLinks ids ((id1, id2) :: acc) rest with
              | error e => rw [hrec] at h; exact Except.noConfusion h
              | ok evs2 =>
                rcases List.mem_cons.mp hl with rfl | hl2
                · unfold goodLinkLine
                  rw [if_neg (by simp [hb2]), heq]
                  simp [hid1, hid2]
                · refine ih ((id1, id2) :: acc) evs2 hrec ?_ l hl2
                  intro x hx
                  rcases List.mem_cons.mp hx with rfl | hx2
                  · exact ⟨hid1, hid2⟩
                  · exact hacc x hx2
            · exact Except.noConfusion h
          · exact Except.noConfusion h
      · exact Except.noConfusion h

theorem runLinks_none (v4 traces : Bool) (hosts : List String) :
    ∀ lines, (∀ l ∈ lines, goodLinkLine hosts l = true) →
      (runLinks v4 traces hosts lines).2 = none := by
  intro lines
  induction lines with
  | nil => intro _; rfl
  | cons line rest ih =>
    intro h
    rw [runLinks_cons_eq]
    by_cases hb : isBlank line = true
    · rw [if_pos hb]
      exact ih fun l hl => h l (List.mem_cons_of_mem line hl)
    · rw [if_neg hb]
      obtain ⟨a, b, c, d, e, hf, ha, hbm⟩ :=
        goodLinkLine_elim hosts line (bool_false_of_not _ hb)
          (h line (List.mem_cons_self line rest))
      simp only [hf]
      rw [if_pos ha]
      exact ih fun l hl => h l (List.mem_cons_of_mem line hl)

theorem buildLinks_fails (ids : List String) :
    ∀ lines, hasBad 5 lines = true → ∀ acc,
      ∃ e, buildLinks ids acc lines = .error e := by
  intro lines
  induction lines with
  | nil => intro h; simp [hasBad] at h
  | cons line rest ih =>
    intro h acc
    rw [buildLinks_cons_eq]
    by_cases hb : isBlank line = true
    · rw [if_pos hb]
      refine ih ?_ acc
      rw [hasBad, List.all_cons, wfCount, hb, Bool.true_or, Bool.true_and] at h
      rw [hasBad]
      exact h
    · rw [if_neg hb]
      have hb2 : isBlank line = false := bool_false_of_not _ hb
      rcases hfl : fields line with _ | ⟨a, _ | ⟨b, _ | ⟨c, _ | ⟨d, _ | ⟨e, _ | ⟨f, t⟩⟩⟩⟩⟩⟩ <;>
        simp only [hfl]
      · exact ⟨_, rfl⟩
      · exact ⟨_, rfl⟩
      · exact ⟨_, rfl⟩
      · exact ⟨_, rfl⟩
      · exact ⟨_, rfl⟩
      · have hwf : wfCount 5 line = true := by
          rw [wfCount, hfl]
          simp
        rw [hasBad, List.all_cons, hwf, Bool.true_and] at h
        have hrest : hasBad 5 rest = true := by rw [hasBad]; exact h
        by_cases hdup : (a, b) ∈ acc ∨ (b, a) ∈ acc
        · rw [if_pos hdup]
          exact ih hrest acc
        · rw [if_neg hdup]
          by_cases hid1 : a ∈ ids
          · rw [if_pos hid1]
            by_cases hid2 : b ∈ ids
            · rw [if_pos hid2]
              obtain ⟨e2, herr⟩ := ih hrest ((a, b) :: acc)
              rw [herr]
              exact ⟨e2, rfl⟩
            · rw [if_neg hid2]
              exact ⟨_, rfl⟩
          · rw [if_neg hid1]
            exact ⟨_, rfl⟩
      · exact ⟨_, rfl⟩

theorem buildLinks_first_malformed (ids : List String) (bad : String)
    (hnb : isBlank bad = false) (hlen : (fields bad).length ≠ 5) :
    ∀ pre, (∀ l ∈ pre, goodLinkLine ids l = true) → ∀ acc post,
      buildLinks ids acc (pre ++ bad :: post) = .error (Err.malformed linksFile bad) := by
  intro pre
  induction pre with
  | nil =>
    intro _ acc post
    show buildLinks ids acc (bad :: post) = _
    rw [buildLinks_cons_eq, if_neg (by simp [hnb])]
    split
    · next a b c d e heq => exact absurd (by simp [heq]) hlen
    · rfl
  | cons g pre2 ih =>
    intro hpre acc post
    show buildLinks ids acc (g :: (pre2 ++ bad :: post)) = _
    have hg := hpre g (List.mem_cons_self g pre2)
    rw [buildLinks_cons_eq]
    by_cases hb : isBlank g = true
    · rw [if_pos hb]
      exact ih (fun l hl => hpre l (List.mem_cons_of_mem g hl)) acc post
    · rw [if_neg hb]
      obtain ⟨a, b, c, d, e, hf, ha, hbm⟩ :=
        goodLinkLine_elim ids g (bool_false_of_not _ hb) hg
      simp only [hf]
      by_cases hdup : (a, b) ∈ acc ∨ (b, a) ∈ acc
      · rw [if_pos hdup]
        exact ih (fun l hl => hpre l (List.mem_cons_of_mem g hl)) acc post
      · rw [if_neg hdup, if_pos ha, if_pos hbm]
        rw [ih (fun l hl => hpre l (List.mem_cons_of_mem g hl)) ((a, b) :: acc) post]

theorem runPaths_fails (v4 : Bool) (hosts : List String) :
    ∀ lines, lines.any (unknownPathLine hosts) = true →
      (runPaths v4 hosts lines).2.isSome = true := by
  intro lines
  induction lines with
  | nil => intro h; simp at h
  | cons line rest ih =>
    intro h
    rcases runPaths_cons_shape v4 hosts line rest with
      ⟨hbl, hsh⟩ | ⟨id1, f2, link, lb, hnb, hf, hmem, hsh⟩ | ⟨e, hsh⟩
    · rw [hsh]
      apply ih
      rw [List.any_cons] at h
      have hul : unknownPathLine hosts line = false := by simp [unknownPathLine, hbl]
      rw [hul, Bool.false_or] at h
      exact h
    · rw [hsh]
      apply ih
      rw [List.any_cons] at h
      have hul : unknownPathLine hosts line = false := by
        unfold unknownPathLine
        rw [if_neg (by simp [hnb])]
        simp [hf, hmem]
      rw [hul, Bool.false_or] at h
      exact h
    · rw [hsh]
      rfl

theorem runPaths_prefix_unknown (v4 : Bool) (hosts : List String) (bad z f2 g d : String)
    (hnb : isBlank bad = false) (hf : fields bad = [z, f2, g, d]) (hz : ¬(z ∈ hosts)) :
    ∀ pre, (∀ l ∈ pre, goodPathLine hosts l = true) → ∀ post,
      (runPaths v4 hosts (pre ++ bad :: post)).2 = some (Err.unknownNode pathsFile z) ∧
      (runPaths v4 hosts (pre ++ bad :: post)).1.countP Ev.isRoute = pre.countP nonBlank := by
  intro pre
  induction pre with
  | nil =>
    intro _ post
    simp only [List.nil_append]
    rw [runPaths_cons_eq, if_neg (by simp [hnb])]
    simp only [hf]
    rw [if_neg hz]
    exact ⟨rfl, rfl⟩
  | cons gl pre2 ih =>
    intro hpre post
    have hg := hpre gl (List.mem_cons_self gl pre2)
    have ihp := ih (fun l hl => hpre l (List.mem_cons_of_mem gl hl)) post
    simp only [List.cons_append]
    rw [runPaths_cons_eq]
    by_cases hb : isBlank gl = true
    · rw [if_pos hb]
      refine ⟨ihp.1, ?_⟩
      rw [ihp.2, List.countP_cons]
      simp [nonBlank, hb]
    · rw [if_neg hb]
      obtain ⟨a, b2, c2, d2, hfg, ha⟩ :=
        goodPathLine_elim hosts gl (bool_false_of_not _ hb) hg
      simp only [hfg]
      rw [if_pos ha]
      refine ⟨ihp.1, ?_⟩
      simp only [List.countP_cons, ihp.2]
      have hnbg : nonBlank gl = true := by simp [nonBlank, bool_false_of_not _ hb]
      simp [hnbg, Ev.isRoute]

theorem unknownLinkLine_not_good (ids : List String) (l : String)
    (h : unknownLinkLine ids l = true) : ¬ goodLinkLine ids l = true := by
  intro hg
  unfold unknownLinkLine at h
  by_cases hb : isBlank l = true
  · rw [if_pos hb] at h; exact Bool.noConfusion h
  · rw [if_neg hb] at h
    obtain ⟨a, b, c, d, e, hf, ha, hbm⟩ :=
      goodLinkLine_elim ids l (bool_false_of_not _ hb) hg
    simp [hf, ha, hbm] at h

theorem unknownPathLine_not_good (ids : List String) (l : String)
    (h : unknownPathLine ids l = true) : ¬ goodPathLine ids l = true := by
  intro hg
  unfold unknownPathLine at h
  by_cases hb : isBlank l = true
  · rw [if_pos hb] at h; exact Bool.noConfusion h
  · rw [if_neg hb] at h
    obtain ⟨a, b, c, d, hf, ha⟩ :=
      goodPathLine_elim ids l (bool_false_of_not _ hb) hg
    simp [hf, ha] at h

/-- Node file of the C6 counterexample and of the C6/C7 witness runs. -/
def cNodesC6 : List String := ["a 1.1.1.1/32"]

/-- Link file of the C6 counterexample: the first record references the unknown
node `Z`, the second line has the wrong field count. -/
def cLinksC6 : List String := ["a Z 0 x y", "b"]

/-- C6 counterexample: a link file containing a wrong-field-count line does
abort the load with no partial result, but not necessarily with a
`MalformedRecord` error: here an earlier record referencing the unknown node
`Z` makes the load fail with `UnknownNodeReference` instead. -/
theorem C6_counterexample :
    hasBad 5 cLinksC6 = true ∧
    buildFails (build cNodesC6 cLinksC6) = true ∧
    errMalformed (build cNodesC6 cLinksC6) = false ∧
    build cNodesC6 cLinksC6 = Except.error (Err.unknownNode linksFile "Z") :=
  ⟨by decide, by decide, by decide, by decide⟩

/-- C6 (amended): a wrong-field-count line in the node or link file makes the
whole load fail with no partial result (no hosts, no links); the error is
`MalformedRecord` identifying the offending line whenever that line is the
first faulty record (for the node file always; for the link file provided the
earlier link records are well formed with known endpoints — an earlier unknown
reference yields `UnknownNodeReference` instead). -/
theorem C6_malformed_amended (nl ll pre post : List String) (bad : String) :
    (hasBad 2 nl = true → errMalformed (build nl ll) = true) ∧
    (hasBad 5 ll = true → buildFails (build nl ll) = true) ∧
    (hasBad 2 nl = false → ll = pre ++ bad :: post →
      (∀ l ∈ pre, goodLinkLine (nodeIds nl) l = true) →
      isBlank bad = false → (fields bad).length ≠ 5 →
      build nl ll = .error (Err.malformed linksFile bad)) := by
  refine ⟨?_, ?_, ?_⟩
  · intro h
    obtain ⟨l, herr⟩ := buildNodes_malformed nl h
    unfold build
    rw [herr]
    rfl
  · intro h
    cases hbb : build nl ll with
    | error e => rfl
    | ok evs =>
      exfalso
      obtain ⟨nevs, ids, levs, hbn, hbl, _⟩ := build_ok_elim nl ll evs hbb
      obtain ⟨e, herr⟩ := buildLinks_fails ids ll h []
      rw [herr] at hbl
      exact Except.noConfusion hbl
  · intro hnl hll hpre hnb hlen
    obtain ⟨nevs, ids, hok⟩ := buildNodes_ok_of_wf nl hnl
    have hids : ids = nodeIds nl := (buildNodes_hostIds nl nevs ids hok).2
    subst hll
    unfold build
    rw [hok]
    show (match buildLinks ids [] (pre ++ bad :: post) with
          | Except.error e => Except.error e
          | Except.ok levs => Except.ok (nevs ++ levs)) = _
    rw [hids, buildLinks_first_malformed (nodeIds nl) bad hnb hlen pre hpre [] post]

/-- Link file of the C6 witness: a good record then a 4-field line. -/
def wLinksC6 : List String := ["a a 0 x y", "b c d e"]

/-- Witness for the amended C6: the node file is clean, the first link record
is fine, the second has four fields, and the load aborts with `MalformedRecord`
naming that line; no host or link event is produced. -/
theorem C6_malformed_amended_witness :
    isBlank "b c d e" = false ∧
    (fields "b c d e").length ≠ 5 ∧
    build cNodesC6 wLinksC6 = Except.error (Err.malformed linksFile "b c d e") :=
  ⟨by decide, by decide,
   (C6_malformed_amended cNodesC6 wLinksC6 ["a a 0 x y"] [] "b c d e").2.2
     (by decide) rfl (by decide) (by decide) (by decide)⟩

/-- Path file of the C7 counterexample and witness: a valid route record for
host `a` followed by a record naming the unknown node `Z`. -/
def cPathsC7 : List String := ["a 0 10.0.0.2 2.2.2.2/32", "Z 0 1 2"]

/-- C7 counterexample: a path file referencing an unknown node id does abort
the run with `UnknownNodeReference`, but not before ANY route-installation
command: the route of the earlier valid record has already been issued
(one route command is in the trace). -/
theorem C7_counterexample :
    runErr false false cNodesC2 [] cPathsC7 = some (Err.unknownNode pathsFile "Z") ∧
    (runTrace false false cNodesC2 [] cPathsC7).countP Ev.isRoute = 1 :=
  ⟨by decide, by decide⟩

/-- C7 (amended): a link or path record referencing a node id outside the node
set makes the run fail; for a path file whose records before the offending one
are well formed with known hosts, the error is `UnknownNodeReference` naming
the unknown id and the run aborts before the offending record's route command,
with exactly the routes of the preceding non-blank records already
installed. -/
theorem C7_unknown_amended (v4 traces : Bool) (nl ll pl pre post : List String)
    (bad z f2 g d : String) (evs : List BEv) :
    (ll.any (unknownLinkLine (nodeIds nl)) = true →
      (runErr v4 traces nl ll pl).isSome = true) ∧
    (pl.any (unknownPathLine (nodeIds nl)) = true →
      (runErr v4 traces nl ll pl).isSome = true) ∧
    (build nl ll = .ok evs → pl = pre ++ bad :: post →
      (∀ l ∈ pre, goodPathLine (nodeIds nl) l = true) →
      isBlank bad = false → fields bad = [z, f2, g, d] → ¬(z ∈ nodeIds nl) →
      runErr v4 traces nl ll pl = some (Err.unknownNode pathsFile z) ∧
      (runTrace v4 traces nl ll pl).countP Ev.isRoute = pre.countP nonBlank) := by
  refine ⟨?_, ?_, ?_⟩
  · intro h
    cases hres : runErr v4 traces nl ll pl with
    | some e => rfl
    | none =>
      exfalso
      obtain ⟨ids, nevs, levs, hbn, hbl, _, _, _, _⟩ :=
        simpleRun_err_none v4 traces nl ll pl hres
      have hgood := buildLinks_ok_good ids ll [] levs hbl (by intro x hx; simp at hx)
      have hids : ids = nodeIds nl := (buildNodes_hostIds nl nevs ids hbn).2
      obtain ⟨l, hl, hu⟩ := List.any_eq_true.mp h
      exact unknownLinkLine_not_good (nodeIds nl) l hu (hids ▸ hgood l hl)
  · intro h
    cases hres : runErr v4 traces nl ll pl with
    | some e => rfl
    | none =>
      exfalso
      obtain ⟨ids, nevs, levs, hbn, hbl, hr1, hr2, hr3, htr⟩ :=
        simpleRun_err_none v4 traces nl ll pl hres
      have hids : ids = nodeIds nl := (buildNodes_hostIds nl nevs ids hbn).2
      have hsome := runPaths_fails v4 ids pl (by rw [hids]; exact h)
      rw [hr3] at hsome
      exact Bool.noConfusion hsome
  · intro hb hpl hpre hnb hf hz
    obtain ⟨nevs, ids, levs, hbn, hbl, hevs⟩ := build_ok_elim nl ll evs hb
    have hids : ids = nodeIds nl := (buildNodes_hostIds nl nevs ids hbn).2
    have h1 : (runLoopbacks v4 ids nl).2 = none :=
      runLoopbacks_none v4 ids nl (buildNodes_lines_wf nl nevs ids hbn)
    have h2 : (runLinks v4 traces ids ll).2 = none :=
      runLinks_none v4 traces ids ll
        (buildLinks_ok_good ids ll [] levs hbl (by intro x hx; simp at hx))
    have hp := runPaths_prefix_unknown v4 ids bad z f2 g d hnb hf
      (by rw [hids]; exact hz) pre (by rw [hids]; exact hpre) post
    have herr : runErr v4 traces nl ll pl = (runPaths v4 ids pl).2 := by
      unfold runErr simpleRun
      simp only [hbn, hbl, h1, h2]
    have htr2 : runTrace v4 traces nl ll pl =
        (runLoopbacks v4 ids nl).1 ++ (runLinks v4 traces ids ll).1 ++
          (runPaths v4 ids pl).1 := by
      unfold runTrace simpleRun
      simp only [hbn, hbl, h1, h2]
    subst hpl
    constructor
    · rw [herr]
      exact hp.1
    · rw [htr2, List.countP_append, List.countP_append]
      have c1 : (runLoopbacks v4 ids nl).1.countP Ev.isRoute = 0 := by
        rw [List.countP_eq_zero]
        intro x hx
        simp [(inLoop_not x (runLoopbacks_sect v4 ids nl x hx)).1]
      have c2 : (runLinks v4 traces ids ll).1.countP Ev.isRoute = 0 := by
        rw [List.countP_eq_zero]
        intro x hx
        simp [(inLink_not x (runLinks_sect v4 traces ids ll x hx)).1]
      rw [c1, c2, hp.2]
      omega

/-- Witness for the amended C7: the build succeeds, the run aborts with
`UnknownNodeReference` on `Z`, and exactly the one route of the preceding
valid record was installed. -/
theorem C7_unknown_amended_witness :
    build cNodesC6 [] = Except.ok [BEv.addHost "a" "1.1.1.1/32" "00:00:00:00:00:a"] ∧
    (runErr false false cNodesC6 [] cPathsC7 = some (Err.unknownNode pathsFile "Z") ∧
     (runTrace false false cNodesC6 [] cPathsC7).countP Ev.isRoute =
       (["a 0 10.0.0.2 2.2.2.2/32"] : List String).countP nonBlank) :=
  ⟨by decide,
   (C7_unknown_amended false false cNodesC6 [] cPathsC7 ["a 0 10.0.0.2 2.2.2.2/32"] []
     "Z 0 1 2" "Z" "0" "1" "2" [BEv.addHost "a" "1.1.1.1/32" "00:00:00:00:00:a"]).2.2
     (by decide) rfl (by decide) (by decide) (by decide) (by decide)⟩

theorem isPrefixOf_iff_ex : ∀ (p l : List Char), p.isPrefixOf l = true ↔ ∃ t, l = p ++ t := by
  intro p
  induction p with
  | nil =>
    intro l
    simp [List.isPrefixOf]
  | cons a as ih =>
    intro l
    cases l with
    | nil =>
      simp only [List.isPrefixOf]
      constructor
      · intro hc; exact Bool.noConfusion hc
      · rintro ⟨t, ht⟩; exact List.noConfusion ht
    | cons b bs =>
      simp only [List.isPrefixOf]
      rw [Bool.and_eq_true, beq_iff_eq, ih bs]
      constructor
      · rintro ⟨rfl, t, rfl⟩
        exact ⟨t, rfl⟩
      · rintro ⟨t, ht⟩
        injection ht with h1 h2
        exact ⟨h1.symm, t, h2⟩

theorem not_insidePcaps (h i : String) (hs : ('/' : Char) ∉ h.data) :
    insidePcaps (captureFile h i) = false := by
  by_contra hc
  have htrue : insidePcaps (captureFile h i) = true := by
    cases hcase : insidePcaps (captureFile h i)
    · exact absurd hcase hc
    · rfl
  unfold insidePcaps at htrue
  rw [isPrefixOf_iff_ex] at htrue
  obtain ⟨t, ht⟩ := htrue
  have hdata : (captureFile h i).data = h.data ++ ("-".data ++ (i.data ++ ".pcap".data)) := by
    show (h ++ "-" ++ i ++ ".pcap").data = _
    have e1 : ∀ (x y : String), (x ++ y).data = x.data ++ y.data := fun x y => rfl
    rw [e1, e1, e1, List.append_assoc, List.append_assoc]
  rw [hdata] at ht
  rcases List.append_eq_append_iff.mp ht with ⟨a2, hP, hX⟩ | ⟨c2, hh, ht2⟩
  · cases a2 with
    | nil =>
      rw [List.append_nil] at hP
      have hsl : ('/' : Char) ∈ "pcaps/".data := by decide
      rw [hP] at hsl
      exact hs hsl
    | cons x a3 =>
      have hdash : "-".data = ['-'] := rfl
      rw [hdash] at hX
      simp only [List.cons_append, List.nil_append] at hX
      injection hX with h1 h2
      have hmem : x ∈ "pcaps/".data := by
        rw [hP]
        simp
      rw [← h1] at hmem
      exact absurd hmem (by decide)
  · have hsl : ('/' : Char) ∈ "pcaps/".data := by decide
    apply hs
    rw [hh]
    exact List.mem_append.mpr (Or.inl hsl)

theorem runLinks_tcpdump_host (v4 traces : Bool) (hosts : List String) :
    ∀ lines x h i,
      Ev.exec x (Cmd.tcpdump h i) ∈ (runLinks v4 traces hosts lines).1 → x = h := by
  intro lines
  induction lines with
  | nil => intro x h i hm; simp [runLinks] at hm
  | cons line rest ih =>
    intro x h i hm
    rcases runLinks_cons_shape v4 traces hosts line rest with
      ⟨hbl, hsh⟩ | ⟨id1, f2, itf, link, f5, hnb, hf, hmem, hsh⟩ | ⟨e, hsh⟩
    · rw [hsh] at hm
      exact ih x h i hm
    · rw [hsh] at hm
      simp only [List.mem_cons] at hm
      rcases hm with h1|h1|h1|h1|hm
      · simp at h1
      · simp at h1
      · simp at h1
      · simp at h1
      · rcases List.mem_append.mp hm with hc|hm2
        · cases traces
          · simp at hc
          · simp only [if_true, List.mem_cons, List.not_mem_nil, or_false] at hc
            rcases hc with h1|h1
            · simp at h1
            · simp only [Ev.exec.injEq, Cmd.tcpdump.injEq] at h1
              obtain ⟨hx, hh, _⟩ := h1
              rw [hx, hh]
        · exact ih x h i hm2
    · rw [hsh] at hm
      simp at hm

/-- Node file of the C10 counterexample: a host whose id contains a path
separator and begins with the capture directory name. -/
def cNodesC10 : List String := ["pcaps/h 1.1.1.1/32"]

/-- Link file of the C10 counterexample: one self-link record for that host. -/
def cLinksC10 : List String := ["pcaps/h pcaps/h 0 10.0.0.1/30 x"]

/-- C10 counterexample: nothing prevents a host id that itself begins with
`pcaps/`; then the generated capture file `pcaps/h-0.pcap` lies inside the
capture directory, so the claim that the capture path is never inside `pcaps`
fails (a reset would delete it). -/
theorem C10_counterexample :
    ((runTrace false true cNodesC10 cLinksC10 []).any Ev.isTcpdumpInsidePcaps) = true ∧
    insidePcaps (captureFile "pcaps/h" "0") = true :=
  ⟨by decide, by decide⟩

/-- C10 (amended): every capture-start command in a traced run is executed on
the host named in its own record and writes to `<hostId>-<interfaceIndex>.pcap`;
provided the host id contains no `/`, that path is not inside the capture
directory `pcaps`, so resetting the directory cannot delete a capture file.  A
host id containing `/` (e.g. one beginning with `pcaps/`) can defeat this. -/
theorem C10_capture_amended (v4 : Bool) (nl ll pl : List String) (x h i : String)
    (hmem : Ev.exec x (Cmd.tcpdump h i) ∈ runTrace v4 true nl ll pl)
    (hs : ('/' : Char) ∉ h.data) :
    x = h ∧ insidePcaps (captureFile h i) = false := by
  refine ⟨?_, not_insidePcaps h i hs⟩
  obtain ⟨ids, L1, L2, L3, heq, h1, h2, h3⟩ := runTrace_decomp v4 true nl ll pl
  rw [heq] at hmem
  rcases List.mem_append.mp hmem with hc | hm3
  · rcases List.mem_append.mp hc with hm1 | hm2
    · rcases h1 with rfl | rfl
      · simp at hm1
      · have := runLoopbacks_sect v4 ids nl _ hm1
        simp [Ev.inLoopSection] at this
    · rcases h2 with rfl | rfl
      · simp at hm2
      · exact runLinks_tcpdump_host v4 true ids ll x h i hm2
  · rcases h3 with rfl | rfl
    · simp at hm3
    · have := runPaths_route v4 ids pl _ hm3
      simp [Ev.isRoute] at this

/-- Witness for the amended C10: the traced run of the worked example starts a
capture on host A's interface 0, executed on A itself, and its output file
`A-0.pcap` is not inside the `pcaps` directory. -/
theorem C10_capture_amended_witness :
    (Ev.exec "A" (Cmd.tcpdump "A" "0") ∈ runTrace false true wNodes wLinks wPaths) ∧
    ("A" = "A" ∧ insidePcaps (captureFile "A" "0") = false) :=
  ⟨by decide,
   C10_capture_amended false wNodes wLinks wPaths "A" "A" "0" (by decide) (by decide)⟩

end MininetTopo

